import Mathlib

/-!
Shallow embedding, in Lean 4, of the systematics-aware sample/histogram
aggregation engine of the hhana Higgs-to-tau-tau analysis code: the
`Sample`/`MC`/`Data`/`QCD` hierarchy of `mva/samples.py` and the
`Sample`/`SystematicsSample` hierarchy of `mva/samples/sample.py`, together
with theorems settling the frozen claims about this engine.

Modelling conventions
* The backing store (ROOT trees / PyTables tables) is external to the core
  per the specification; a row is an `Event`, a total map from branch names
  to rational values, and a selection (`Cut`) is a boolean predicate on rows.
* Histograms are binned rational vectors `Fin n → ℚ`; every histogram
  operation the engine uses (`Clone`, `Reset`, `+=`, `*`, `Integral`,
  `fill`) is bin-wise linear, so the pointwise module structure is faithful.
* Machine floats are modelled by `ℚ`; the claims under study are exact
  algebraic identities of the code, not rounding statements.
* External data tables that live outside the provided sources
  (`LUMI`, `REGIONS`, `WEIGHT_SYSTEMATICS`, `EMBEDDING_SYSTEMATICS`,
  `iter_systematics`) are threaded through as explicit parameters, as the
  spec treats them as opaque collaborator data.
-/

set_option autoImplicit false

namespace Hhana

/-- A weight-branch or field name in the ntuple schema. -/
abbrev Branch := String

/-- One event (row) of a backing tree/table: a total assignment of rational
values to branch names.  Rows are modelled as total maps so any branch can
be read; schema membership is tracked separately on tables where it
matters. -/
structure Event where
  val : Branch → ℚ

/-- Value of one `*`-factor of a weighted ROOT selection string: the
literal token `"1.0"` (used by `get_weight_branches` when `weighted` is
false) evaluates to the constant 1, any other token reads a branch. -/
def branchVal (e : Event) (b : Branch) : ℚ :=
  if b = "1.0" then 1 else e.val b

/-- Product of the weight-branch values of an event: the
`'*'.join(map(str, weight_branches))` factor of a weighted selection. -/
def branchProd (e : Event) (bs : List Branch) : ℚ :=
  (bs.map (branchVal e)).prod

/-- A selection predicate (rootpy `Cut`), evaluated per event. -/
abbrev Cut := Event → Bool

/-- Conjunction of two cuts (`cut1 & cut2`). -/
def cutAnd (a b : Cut) : Cut := fun e => a e && b e

/-- Conjunction `cut & other` where `other` may be Python `None`; rootpy treats `None`
as the empty cut, which accepts every event. -/
def cutAndOpt (c : Cut) (o : Option Cut) : Cut :=
  fun e => c e && (match o with | none => true | some c2 => c2 e)

/-- The empty `Cut()`: accepts every event. -/
def emptyCut : Cut := fun _ => true

/-- A systematic identifier: either the literal string `'NOMINAL'` or a
tuple of term strings such as `('JES_UP',)` (`mva/samples.py`,
`mva/samples/sample.py`: systematics are compared against `'NOMINAL'` and
against explicit tuples). -/
inductive Systematic where
  | NOMINAL : Systematic
  | tup : List String → Systematic
  deriving DecidableEq, Repr

/-- The `('ZFIT_UP',)` fit-variation tuple. -/
def ZFIT_UP : Systematic := .tup ["ZFIT_UP"]

/-- The `('ZFIT_DOWN',)` fit-variation tuple. -/
def ZFIT_DOWN : Systematic := .tup ["ZFIT_DOWN"]

/-- The `('QCDFIT_UP',)` fit-variation tuple. -/
def QCDFIT_UP : Systematic := .tup ["QCDFIT_UP"]

/-- The `('QCDFIT_DOWN',)` fit-variation tuple. -/
def QCDFIT_DOWN : Systematic := .tup ["QCDFIT_DOWN"]

/-- The `('JES_UP',)` jet-energy-scale variation tuple. -/
def JES_UP : Systematic := .tup ["JES_UP"]

/-- A binned histogram with `n` bins: one rational content per bin, with
the pointwise additive/module structure standing for ROOT `+=`, `*`,
`Clone`/`Reset`. -/
abbrev Hist (n : ℕ) := Fin n → ℚ

/-- A draw expression (`expr`): maps an event to the bin its value falls
into, or `none` when the value is out of the histogram range. -/
abbrev Expr (n : ℕ) := Event → Option (Fin n)

/-- Model of `tree.Draw(expr, 'w * b1 * ... * (sel)', hist)` into a fresh histogram:
bin `b` receives the sum, over selected events whose expression value falls
in `b`, of the scalar weight times the product of the weight branches. -/
def drawFill {n : ℕ} (tree : List Event) (sel : Cut) (expr : Expr n)
    (scalar : ℚ) (branches : List Branch) : Hist n :=
  fun b =>
    ((tree.filter (fun e => sel e && decide (expr e = some b))).map
      (fun e => scalar * branchProd e branches)).sum

/-- Successive `Draw` calls of a list of expressions accumulating into one
histogram (the `for expr in exprs:` loop of `draw_into`). -/
def drawExprs {n : ℕ} (tree : List Event) (sel : Cut) (exprs : List (Expr n))
    (scalar : ℚ) (branches : List Branch) : Hist n :=
  exprs.foldl (fun h ex => h + drawFill tree sel ex scalar branches) 0

/-- Model of `tree.GetEntries(selection)`: the raw number of selected events. -/
def rawCount (tree : List Event) (sel : Cut) : ℕ :=
  (tree.filter sel).length

/-- Integral of a weighted `Draw('1', weight * branches * (sel))` fill into
a one-bin histogram: the sum of the combined weights of the selected
events (`MC.events`, non-raw branch). -/
def weightedCount (tree : List Event) (sel : Cut) (scalar : ℚ)
    (branches : List Branch) : ℚ :=
  ((tree.filter sel).map (fun e => scalar * branchProd e branches)).sum

/-- First-match association-list lookup, the model of Python dict access
on the small systematics dictionaries. -/
def alookup {α : Type} : List (Systematic × α) → Systematic → Option α
  | [], _ => none
  | (k, v) :: rest, t => if k = t then some v else alookup rest t

/-- The `hist.systematics` dictionary attached to a histogram: a map from
systematic identifiers to sibling histograms. -/
abbrev SysMap (n : ℕ) := List (Systematic × Hist n)

/-- The idiom `if t not in m: m[t] = h else: m[t] += h` — the accumulation idiom used
for every systematics dictionary update in both sample modules: add `h` to
the (unique) existing entry for `t`, or append a new entry when the key is
absent. -/
def accum {n : ℕ} : SysMap n → Systematic → Hist n → SysMap n
  | [], t, h => [(t, h)]
  | (k, v) :: rest, t, h =>
    if k = t then (k, v + h) :: rest else (k, v) :: accum rest t h

/-- After `accum m t h`, key `t` maps to its previous value (default 0)
plus `h`. -/
theorem alookup_accum_self {n : ℕ} (m : SysMap n) (t : Systematic)
    (h : Hist n) :
    alookup (accum m t h) t = some ((alookup m t).getD 0 + h) := by
  induction m with
  | nil => simp [accum, alookup]
  | cons p rest ih =>
    obtain ⟨k, v⟩ := p
    by_cases hk : k = t
    · subst hk
      simp [accum, alookup]
    · simp only [accum, hk, if_false, alookup]
      exact ih

/-- Applying `accum` at one key leaves every other key unchanged. -/
theorem alookup_accum_ne {n : ℕ} (m : SysMap n) {t' t : Systematic}
    (h : Hist n) (hne : t' ≠ t) :
    alookup (accum m t' h) t = alookup m t := by
  induction m with
  | nil => simp [accum, alookup, hne]
  | cons p rest ih =>
    obtain ⟨k, v⟩ := p
    by_cases hk : k = t'
    · subst hk
      have hkt : ¬(k = t) := fun hkk => hne hkk
      simp [accum, alookup, hkt]
    · simp only [accum, hk, if_false, alookup]
      by_cases hkt : k = t
      · simp [hkt]
      · simp only [hkt, if_false]
        exact ih

/-- Folding `accum` steps whose keys all differ from `t` preserves the
entry at `t`. -/
theorem alookup_foldl_accum_preserve {n : ℕ} {ι : Type}
    (key : ι → Systematic) (g : ι → Hist n) (l : List ι) (m : SysMap n)
    (t : Systematic) (hl : ∀ i ∈ l, key i ≠ t) :
    alookup (l.foldl (fun acc i => accum acc (key i) (g i)) m) t =
      alookup m t := by
  induction l generalizing m with
  | nil => rfl
  | cons i rest ih =>
    rw [List.foldl_cons, ih _ (fun j hj => hl j (List.mem_cons_of_mem _ hj)),
      alookup_accum_ne _ _ (hl i (List.mem_cons_self i rest))]

/-- Folding `accum` steps over a list in which exactly one element carries
key `t` adds that element's histogram to the entry at `t`. -/
theorem alookup_foldl_accum_eq {n : ℕ} {ι : Type}
    (key : ι → Systematic) (g : ι → Hist n) (l₁ l₂ : List ι) (i : ι)
    (m : SysMap n) (t : Systematic)
    (h₁ : ∀ j ∈ l₁, key j ≠ t) (h₂ : ∀ j ∈ l₂, key j ≠ t)
    (hk : key i = t) :
    alookup ((l₁ ++ i :: l₂).foldl
      (fun acc j => accum acc (key j) (g j)) m) t =
      some ((alookup m t).getD 0 + g i) := by
  rw [List.foldl_append, List.foldl_cons,
    alookup_foldl_accum_preserve key g l₂ _ t h₂,
    hk, alookup_accum_self, alookup_foldl_accum_preserve key g l₁ m t h₁]

/-- An analysis category, consumed as an opaque capability object exposing
`get_cuts(year) -> predicate` (spec §3/§6). -/
structure Category where
  getCuts : ℕ → Cut

/-- A `WEIGHT_SYSTEMATICS`-style table (external `mva/systematics.py`):
family term ↦ (variation name ↦ weight-branch names). -/
abbrev WeightSysTable := List (String × (String → List Branch))

/-- The table `EMBEDDING_SYSTEMATICS` viewed by `get_weight_branches`: family term ↦
(variation ↦ optional weight-branch), `none` standing for a falsy entry
that the code skips. -/
abbrev EmbWeightTable := List (String × (String → Option Branch))

/-- The table `EMBEDDING_SYSTEMATICS` viewed by `cuts`: family term ↦
(variation ↦ selection predicate). -/
abbrev EmbCutTable := List (String × (String → Cut))

/-- The `REGIONS` table (external `mva/regions.py`): region name ↦
predicate. -/
abbrev Regions := String → Cut

namespace SamplesPy

/-- Model of `Sample.get_sys_term_variation` (`mva/samples.py:273-286`): `'NOMINAL'`
and multi-term tuples degrade to `(None, 'NOMINAL')`; a 1-tuple term
`"<TERM>_<VARIATION>"` is split on `'_'` into exactly two parts.  (A term
that does not split into exactly two parts raises `ValueError` in Python
and is not modelled; no real term of this module has that shape.) -/
def getSysTermVariation : Systematic → Option String × String
  | .NOMINAL => (none, "NOMINAL")
  | .tup ts =>
    match ts with
    | [t] =>
      match t.splitOn "_" with
      | [a, b] => (some a, b)
      | _ => (none, "NOMINAL")
    | _ => (none, "NOMINAL")

/-- The list `Sample.WEIGHT_BRANCHES` (`mva/samples.py:86-90`). -/
def WEIGHT_BRANCHES : List Branch :=
  ["mc_weight", "pileup_weight", "ggf_weight"]

/-- One `(ds, trees, tables, weighted_events, xs, kfact, effic)` dataset
entry of `MC.datasets` (`mva/samples.py:662-663`), restricted to the parts
reachable from `MC.events`.  Variation dictionaries are modelled as total
maps (dict accesses in `MC.events` are unguarded in the source; a missing
key raises there and is not modelled). -/
structure MCDataset where
  sysTrees : Systematic → List Event
  sysEvents : Systematic → ℚ
  xs : ℚ
  kfact : ℚ
  effic : ℚ

/-- State of a `samples.py` `MC` sample: `lumi` caches the external
`LUMI[self.year]`, `isZtautau`/`isEmbedded` stand for the
`isinstance(self, Ztautau)` / `isinstance(self, Embedded_Ztautau)` role
tests. -/
structure MC where
  year : ℕ
  lumi : ℚ
  scale : ℚ
  scale_error : ℚ
  isZtautau : Bool
  isEmbedded : Bool
  cutsBase : Cut
  systematics : Bool
  datasets : List MCDataset

/-- Model of `Sample.get_weight_branches` (`mva/samples.py:288-312`). -/
def MC.getWeightBranches (s : MC) (WS : WeightSysTable) (EMBW : EmbWeightTable)
    (systematic : Systematic) (noCuts onlyCuts weighted : Bool) : List Branch :=
  if ¬ weighted then ["1.0"]
  else
    let sv := getSysTermVariation systematic
    let wb :=
      if ¬ onlyCuts then
        WS.foldl (fun acc tv =>
          acc ++ (if some tv.1 = sv.1 then tv.2 sv.2 else tv.2 "NOMINAL"))
          WEIGHT_BRANCHES
      else []
    if ¬ noCuts ∧ s.isEmbedded then
      EMBW.foldl (fun acc tv =>
        acc ++ (match (if some tv.1 = sv.1 then tv.2 sv.2 else tv.2 "NOMINAL") with
                | none => []
                | some b => [b])) wb
    else wb

/-- Model of `Sample.cuts` (`mva/samples.py:330-341`): for `Embedded_Ztautau` the
embedding-systematics sub-cuts are conjoined (active variation for the
matching term, `NOMINAL` for the others), then
`category.get_cuts(year) & REGIONS[region] & self._cuts & sys_cut`. -/
def MC.cuts (s : MC) (EMBC : EmbCutTable) (REGIONS : Regions)
    (category : Category) (region : String) (systematic : Systematic) : Cut :=
  let sv := getSysTermVariation systematic
  let sysCut : Cut :=
    if s.isEmbedded then
      EMBC.foldl (fun acc tv =>
        cutAnd acc (if some tv.1 = sv.1 then tv.2 sv.2 else tv.2 "NOMINAL"))
        emptyCut
    else emptyCut
  cutAnd (cutAnd (cutAnd (category.getCuts s.year) (REGIONS region))
    s.cutsBase) sysCut

/-- Model of `MC.events` (`mva/samples.py:1097-1125`): per dataset, either the raw
entry count under the resolved selection, or the integral of the weighted
`Draw('1', ...)` with scalar weight
`LUMI[year] * self.scale * xs * kfact * effic / events`; the grand total is
finally multiplied by the `scale` argument. -/
def MC.events (s : MC) (WS : WeightSysTable) (EMBW : EmbWeightTable)
    (EMBC : EmbCutTable) (REGIONS : Regions) (category : Category)
    (region : String) (cuts_ : Option Cut) (systematic : Systematic)
    (weighted : Bool) (scale : ℚ) (raw : Bool) : ℚ :=
  (s.datasets.foldl (fun acc ds =>
    let tree := ds.sysTrees systematic
    let events := ds.sysEvents systematic
    let sel := cutAndOpt (s.cuts EMBC REGIONS category region systematic) cuts_
    acc + (if raw then (rawCount tree sel : ℚ)
      else
        weightedCount tree sel
          (s.lumi * s.scale * ds.xs * ds.kfact * ds.effic / events)
          (s.getWeightBranches WS EMBW systematic false false weighted))) 0) *
    scale

/-- State of a `samples.py` `Data` sample: one backing tree of rows. -/
structure Data where
  year : ℕ
  cutsBase : Cut
  rows : List Event

/-- Model of `Sample.cuts` as resolved for a `Data` sample (not embedded, so the
systematic sub-cut is the empty cut). -/
def Data.cuts (d : Data) (REGIONS : Regions) (category : Category)
    (region : String) : Cut :=
  cutAnd (cutAnd (cutAnd (category.getCuts d.year) (REGIONS region))
    d.cutsBase) emptyCut

/-- Model of `Data.events` (`mva/samples.py:383-388`): `GetEntries` under
`self.cuts(category, region) & cuts` — always an unweighted raw count; the
`raw` parameter of the Python signature is ignored by the body. -/
def Data.events (d : Data) (REGIONS : Regions) (category : Category)
    (region : String) (cuts_ : Option Cut) : ℚ :=
  (rawCount d.rows (cutAndOpt (d.cuts REGIONS category region) cuts_) : ℚ)

/-- State of a `samples.py` `QCD` sample after construction. -/
structure QCD where
  data : Data
  mc : List MC
  scale : ℚ
  scale_error : ℚ
  data_scale : ℚ
  mc_scales : List ℚ
  shape_region : String
  systematics : Bool

/-- Model of `QCD.events` (`mva/samples.py:1357-1375`): data is counted in the
shape region ignoring the `region` argument and the `raw` flag; each MC
component is evaluated in the shape region with `scale=mc_scale`; with
`raw` the MC total is added and the QCD normalization scale is not
applied, otherwise `(data_scale * data - mc_subtract) * self.scale`. -/
def QCD.events (q : QCD) (WS : WeightSysTable) (EMBW : EmbWeightTable)
    (EMBC : EmbCutTable) (REGIONS : Regions) (category : Category)
    (region : String) (cuts_ : Option Cut) (systematic : Systematic)
    (raw : Bool) : ℚ :=
  let data := q.data.events REGIONS category q.shape_region cuts_
  let mcSubtract := (q.mc_scales.zip q.mc).foldl
    (fun acc p =>
      acc + p.2.events WS EMBW EMBC REGIONS category q.shape_region cuts_
        systematic true p.1 raw) 0
  if raw then q.data_scale * data + mcSubtract
  else (q.data_scale * data - mcSubtract) * q.scale

/-- Model of `Sample.check_systematic` (`mva/samples.py:267-271`): a non-`NOMINAL`
systematic on a `Data`-class sample raises `TypeError`. -/
def checkSystematic (isDataClass : Bool) (systematic : Systematic) :
    Except String Unit :=
  if systematic ≠ .NOMINAL ∧ isDataClass then
    .error "Do not apply systematics on data!"
  else .ok ()

/-- The `for m in mc:` loop of `QCD.sample_compatibility`
(`mva/samples.py:1321-1327`), with `flag = mc[0].systematics`. -/
def sampleCompatibilityGo (dataYear : ℕ) (flag : Bool) :
    List MC → Except String Unit
  | [] => .ok ()
  | m :: rest =>
    if dataYear ≠ m.year then .error "MC and Data years do not match"
    else if m.systematics ≠ flag then
      .error "two MC samples with inconsistent systematics setting"
    else sampleCompatibilityGo dataYear flag rest

/-- Model of `QCD.sample_compatibility` (`mva/samples.py:1314-1327`): rejects an
empty MC list, a year mismatch with the data sample, and inconsistent
systematics flags.  (The `isinstance(mc, (list, tuple))` type check is
subsumed by the Lean type of `mc`.) -/
def sampleCompatibility (data : Data) (mc : List MC) : Except String Unit :=
  match mc with
  | [] => .error "mc must contain at least one MC sample"
  | m0 :: _ => sampleCompatibilityGo data.year m0.systematics mc

/-- Model of `QCD.__init__` (`mva/samples.py:1329-1355`): checks compatibility
first, validates `mc_scales` length (defaulting to all 1), and stores
`self.scale = 1.` (overwriting the `scale` argument passed to the base
class) and `self.systematics = mc[0].systematics`.  The second `[]` branch
repeats the emptiness error and is unreachable past
`sample_compatibility`. -/
def QCD.make (data : Data) (mc : List MC) (scale scale_error data_scale : ℚ)
    (mc_scales : Option (List ℚ)) (shape_region : String) :
    Except String QCD :=
  match sampleCompatibility data mc with
  | .error e => .error e
  | .ok _ =>
    match mc with
    | [] => .error "mc must contain at least one MC sample"
    | m0 :: rest =>
      match mc_scales with
      | some scs =>
        if scs.length = (m0 :: rest).length then
          .ok { data := data, mc := m0 :: rest, scale := 1,
                scale_error := scale_error, data_scale := data_scale,
                mc_scales := scs, shape_region := shape_region,
                systematics := m0.systematics }
        else
          .error "length of MC scales must match number of MC"
      | none =>
        .ok { data := data, mc := m0 :: rest, scale := 1,
              scale_error := scale_error, data_scale := data_scale,
              mc_scales := List.replicate (m0 :: rest).length 1,
              shape_region := shape_region,
              systematics := m0.systematics }

/-- From `MC.__init__` (`mva/samples.py:563-567`): index of the cutflow
histogram bin holding the weighted-event count, by sample role. -/
def eventsBin (isEmbedded : Bool) : ℕ :=
  if isEmbedded then 0 else 1

end SamplesPy

namespace SamplePkg

/-- From `SystematicsSample.__init__` (`mva/samples/sample.py:1001-1005`):
index of the cutflow histogram bin holding the weighted-event count, by
sample role. -/
def eventsBin (isEmbedded : Bool) : ℕ :=
  if isEmbedded then 1 else 2

end SamplePkg

namespace SamplesPy

theorem foldl_add_map_sum {α : Type} (l : List α) (f : α → ℚ) (a : ℚ) :
    l.foldl (fun acc x => acc + f x) a = a + (l.map f).sum := by
  induction l generalizing a with
  | nil => simp
  | cons x xs ih => simp [ih, add_assoc]

/-- The function `MC.events` multiplies its grand total by the `scale` argument, so the
result at scale `sc` is `sc` times the result at scale 1. -/
theorem MC.events_scale_mul (s : MC) (WS : WeightSysTable)
    (EMBW : EmbWeightTable) (EMBC : EmbCutTable) (REGIONS : Regions)
    (category : Category) (region : String) (cuts_ : Option Cut)
    (systematic : Systematic) (weighted : Bool) (sc : ℚ) (raw : Bool) :
    s.events WS EMBW EMBC REGIONS category region cuts_ systematic weighted
      sc raw =
      sc * s.events WS EMBW EMBC REGIONS category region cuts_ systematic
        weighted 1 raw := by
  unfold MC.events
  rw [mul_one, mul_comm]

theorem map_events_scale (l : List (ℚ × MC)) (WS : WeightSysTable)
    (EMBW : EmbWeightTable) (EMBC : EmbCutTable) (REGIONS : Regions)
    (category : Category) (region : String) (cuts_ : Option Cut)
    (systematic : Systematic) (raw : Bool) :
    l.map (fun p => p.2.events WS EMBW EMBC REGIONS category region cuts_
        systematic true p.1 raw) =
      l.map (fun p => p.1 * p.2.events WS EMBW EMBC REGIONS category region
        cuts_ systematic true 1 raw) := by
  induction l with
  | nil => rfl
  | cons p ps ih =>
    rw [List.map_cons, List.map_cons, ih, MC.events_scale_mul]

theorem zip_replicate_one_map {α : Type} (l : List α) (f : α → ℚ) :
    ((List.replicate l.length (1 : ℚ)).zip l).map (fun p => p.1 * f p.2) =
      l.map f := by
  induction l with
  | nil => rfl
  | cons x xs ih =>
    simp [List.replicate_succ, List.zip_cons_cons, ih]

/-- The non-raw branch of `QCD.events` in closed form. -/
theorem QCD.events_eq_sub (q : QCD) (WS : WeightSysTable)
    (EMBW : EmbWeightTable) (EMBC : EmbCutTable) (REGIONS : Regions)
    (category : Category) (region : String) (cuts_ : Option Cut)
    (systematic : Systematic) :
    q.events WS EMBW EMBC REGIONS category region cuts_ systematic false =
      (q.data_scale * q.data.events REGIONS category q.shape_region cuts_ -
        ((q.mc_scales.zip q.mc).map (fun p =>
          p.1 * p.2.events WS EMBW EMBC REGIONS category q.shape_region
            cuts_ systematic true 1 false)).sum) * q.scale := by
  simp only [QCD.events, Bool.false_eq_true, if_false]
  rw [foldl_add_map_sum, zero_add, map_events_scale]

/-- The raw branch of `QCD.events` in closed form. -/
theorem QCD.events_eq_raw (q : QCD) (WS : WeightSysTable)
    (EMBW : EmbWeightTable) (EMBC : EmbCutTable) (REGIONS : Regions)
    (category : Category) (region : String) (cuts_ : Option Cut)
    (systematic : Systematic) :
    q.events WS EMBW EMBC REGIONS category region cuts_ systematic true =
      q.data_scale * q.data.events REGIONS category q.shape_region cuts_ +
        ((q.mc_scales.zip q.mc).map (fun p =>
          p.1 * p.2.events WS EMBW EMBC REGIONS category q.shape_region
            cuts_ systematic true 1 true)).sum := by
  simp only [QCD.events, if_true]
  rw [foldl_add_map_sum, zero_add, map_events_scale]

/-- C1: the QCD subtraction law.  `QCD.events(category, region, cuts,
systematic)` equals `(data_scale * data.events(shape_region) −
Σ mc_scale_i * mc_i.events(shape_region, systematic)) * scale`, and under
`data_scale = 1`, unit per-MC scales and normalization `scale = 1` it is
exactly `data.events(shape_region) − Σ mc_i.events(shape_region,
systematic)` (`mva/samples.py:1357-1375`). -/
theorem qcd_events_subtraction (q : QCD) (WS : WeightSysTable)
    (EMBW : EmbWeightTable) (EMBC : EmbCutTable) (REGIONS : Regions)
    (category : Category) (region : String) (cuts_ : Option Cut)
    (systematic : Systematic) :
    q.events WS EMBW EMBC REGIONS category region cuts_ systematic false =
      (q.data_scale * q.data.events REGIONS category q.shape_region cuts_ -
        ((q.mc_scales.zip q.mc).map (fun p =>
          p.1 * p.2.events WS EMBW EMBC REGIONS category q.shape_region
            cuts_ systematic true 1 false)).sum) * q.scale ∧
    (q.data_scale = 1 → q.mc_scales = List.replicate q.mc.length 1 →
      q.scale = 1 →
      q.events WS EMBW EMBC REGIONS category region cuts_ systematic false =
        q.data.events REGIONS category q.shape_region cuts_ -
          (q.mc.map (fun m =>
            m.events WS EMBW EMBC REGIONS category q.shape_region cuts_
              systematic true 1 false)).sum) := by
  refine ⟨QCD.events_eq_sub q WS EMBW EMBC REGIONS category region cuts_
    systematic, ?_⟩
  intro h1 h2 h3
  rw [QCD.events_eq_sub q WS EMBW EMBC REGIONS category region cuts_
    systematic, h1, h3, one_mul, mul_one, h2,
    zip_replicate_one_map q.mc (fun m =>
      m.events WS EMBW EMBC REGIONS category q.shape_region cuts_
        systematic true 1 false)]

/-- Fixture: a category accepting every event. -/
def catAll : Category := ⟨fun _ => emptyCut⟩

/-- Fixture: a region table accepting every event in every region. -/
def regionsAll : Regions := fun _ => emptyCut

/-- Fixture: an event with every branch equal to 1. -/
def ev1 : Event := ⟨fun _ => 1⟩

/-- Fixture: a data sample with two rows. -/
def dataT : Data := { year := 2012, cutsBase := emptyCut, rows := [ev1, ev1] }

/-- Fixture: an MC dataset entry with a one-row tree for every
variation. -/
def mcdsT : MCDataset :=
  { sysTrees := fun _ => [ev1], sysEvents := fun _ => 1,
    xs := 1, kfact := 1, effic := 1 }

/-- Fixture: an MC sample with one dataset. -/
def mcT : MC :=
  { year := 2012, lumi := 2, scale := 1, scale_error := 0,
    isZtautau := false, isEmbedded := false, cutsBase := emptyCut,
    systematics := true, datasets := [mcdsT] }

/-- Fixture: a QCD sample built over `dataT` and `mcT` with unit scales. -/
def qcdT : QCD :=
  { data := dataT, mc := [mcT], scale := 1, scale_error := 0,
    data_scale := 1, mc_scales := [1], shape_region := "SS",
    systematics := true }

theorem qcd_events_subtraction_witness :
    qcdT.data_scale = 1 ∧
    qcdT.mc_scales = List.replicate qcdT.mc.length 1 ∧
    qcdT.scale = 1 ∧
    qcdT.events [] [] [] regionsAll catAll "OS" none .NOMINAL false =
      qcdT.data.events regionsAll catAll qcdT.shape_region none -
        (qcdT.mc.map (fun m =>
          m.events [] [] [] regionsAll catAll qcdT.shape_region none
            .NOMINAL true 1 false)).sum :=
  ⟨rfl, rfl, rfl,
    (qcd_events_subtraction qcdT [] [] [] regionsAll catAll "OS" none
      .NOMINAL).2 rfl rfl rfl⟩

/-- C10: with `raw=True`, `QCD.events` returns `data_scale * data +
Σ mc_scale_i * raw_mc_i` — the MC contribution is added rather than
subtracted — and the QCD normalization `scale` is not applied (the result
is independent of it), unlike the `raw=False` branch which returns
`(data_scale * data − mc_sum) * scale` (`mva/samples.py:1357-1375`). -/
theorem qcd_events_raw_adds_mc (q : QCD) (WS : WeightSysTable)
    (EMBW : EmbWeightTable) (EMBC : EmbCutTable) (REGIONS : Regions)
    (category : Category) (region : String) (cuts_ : Option Cut)
    (systematic : Systematic) :
    (∀ sc : ℚ,
      QCD.events { q with scale := sc } WS EMBW EMBC REGIONS category
          region cuts_ systematic true =
        q.data_scale * q.data.events REGIONS category q.shape_region cuts_ +
          ((q.mc_scales.zip q.mc).map (fun p =>
            p.1 * p.2.events WS EMBW EMBC REGIONS category q.shape_region
              cuts_ systematic true 1 true)).sum) ∧
    q.events WS EMBW EMBC REGIONS category region cuts_ systematic false =
      (q.data_scale * q.data.events REGIONS category q.shape_region cuts_ -
        ((q.mc_scales.zip q.mc).map (fun p =>
          p.1 * p.2.events WS EMBW EMBC REGIONS category q.shape_region
            cuts_ systematic true 1 false)).sum) * q.scale := by
  refine ⟨fun sc => ?_, QCD.events_eq_sub q WS EMBW EMBC REGIONS category
    region cuts_ systematic⟩
  exact QCD.events_eq_raw { q with scale := sc } WS EMBW EMBC REGIONS
    category region cuts_ systematic

/-- If `sample_compatibility`'s member loop succeeds, every MC component
shares the data year and the reference systematics flag. -/
theorem sampleCompatibilityGo_ok {dataYear : ℕ} {flag : Bool}
    {l : List MC} (h : sampleCompatibilityGo dataYear flag l = .ok ()) :
    ∀ m ∈ l, m.year = dataYear ∧ m.systematics = flag := by
  revert h
  induction l with
  | nil => intro _ m hm; cases hm
  | cons m0 rest ih =>
    intro h m hm
    unfold sampleCompatibilityGo at h
    by_cases hy : dataYear ≠ m0.year
    · rw [if_pos hy] at h; cases h
    · rw [if_neg hy] at h
      push_neg at hy
      by_cases hs : m0.systematics ≠ flag
      · rw [if_pos hs] at h; cases h
      · rw [if_neg hs] at h
        push_neg at hs
        rcases List.mem_cons.mp hm with hm | hm
        · subst hm; exact ⟨hy.symm, hs⟩
        · exact ih h m hm

/-- Inversion for `QCD.make`: a successfully constructed QCD sample
records the given MC list, which is nonempty, year-consistent with the
data sample, and systematics-consistent. -/
theorem QCD.make_ok_inv {data : Data} {mc : List MC}
    {scale scale_error data_scale : ℚ} {mc_scales : Option (List ℚ)}
    {shape_region : String} {q : QCD}
    (h : QCD.make data mc scale scale_error data_scale mc_scales
      shape_region = .ok q) :
    mc ≠ [] ∧ q.mc = mc ∧ (∀ m ∈ mc, m.year = data.year) ∧
      (∀ m ∈ mc, m.systematics = q.systematics) := by
  match mc with
  | [] => simp [QCD.make, sampleCompatibility] at h
  | m0 :: rest =>
    unfold QCD.make at h
    cases hc : sampleCompatibility data (m0 :: rest) with
    | error e => rw [hc] at h; cases h
    | ok u =>
      rw [hc] at h
      cases u
      have hgo : sampleCompatibilityGo data.year m0.systematics
          (m0 :: rest) = .ok () := hc
      have hall := sampleCompatibilityGo_ok hgo
      cases mc_scales with
      | some scs =>
        dsimp only at h
        by_cases hlen : scs.length = (m0 :: rest).length
        · rw [if_pos hlen] at h
          cases h
          exact ⟨List.cons_ne_nil m0 rest, rfl,
            fun m hm => (hall m hm).1, fun m hm => (hall m hm).2⟩
        · rw [if_neg hlen] at h
          cases h
      | none =>
        dsimp only at h
        cases h
        exact ⟨List.cons_ne_nil m0 rest, rfl,
          fun m hm => (hall m hm).1, fun m hm => (hall m hm).2⟩

/-- C8: configuration errors are fatal and raised eagerly.  A non-NOMINAL
systematic on a Data-class sample is a type error
(`mva/samples.py:267-271`); `QCD` construction fails on an empty MC list,
on any year mismatch with the data sample, and on inconsistent
systematics flags, and a successfully constructed `QCD` never violates
these invariants (`mva/samples.py:1314-1355`). -/
theorem qcd_configuration_errors :
    (∀ t : Systematic, t ≠ .NOMINAL →
      checkSystematic true t = .error "Do not apply systematics on data!") ∧
    (∀ (data : Data) (scale scale_error data_scale : ℚ)
      (mc_scales : Option (List ℚ)) (shape_region : String),
      QCD.make data [] scale scale_error data_scale mc_scales shape_region =
        .error "mc must contain at least one MC sample") ∧
    (∀ (data : Data) (mc : List MC) (scale scale_error data_scale : ℚ)
      (mc_scales : Option (List ℚ)) (shape_region : String) (q : QCD),
      QCD.make data mc scale scale_error data_scale mc_scales shape_region =
          .ok q →
        mc ≠ [] ∧ q.mc = mc ∧ (∀ m ∈ mc, m.year = data.year) ∧
          (∀ m ∈ mc, m.systematics = q.systematics)) ∧
    (∀ (data : Data) (mc : List MC) (scale scale_error data_scale : ℚ)
      (mc_scales : Option (List ℚ)) (shape_region : String),
      (∃ m ∈ mc, m.year ≠ data.year) →
      ∃ e, QCD.make data mc scale scale_error data_scale mc_scales
        shape_region = .error e) ∧
    (∀ (data : Data) (mc : List MC) (scale scale_error data_scale : ℚ)
      (mc_scales : Option (List ℚ)) (shape_region : String),
      (∃ m1 ∈ mc, ∃ m2 ∈ mc, m1.systematics ≠ m2.systematics) →
      ∃ e, QCD.make data mc scale scale_error data_scale mc_scales
        shape_region = .error e) := by
  refine ⟨?_, ?_, ?_, ?_, ?_⟩
  · intro t ht
    simp [checkSystematic, ht]
  · intro data scale scale_error data_scale mc_scales shape_region
    rfl
  · intro data mc scale scale_error data_scale mc_scales shape_region q h
    exact QCD.make_ok_inv h
  · intro data mc scale scale_error data_scale mc_scales shape_region hbad
    cases hres : QCD.make data mc scale scale_error data_scale mc_scales
        shape_region with
    | error e => exact ⟨e, rfl⟩
    | ok q =>
      obtain ⟨m, hm, hy⟩ := hbad
      exact absurd ((QCD.make_ok_inv hres).2.2.1 m hm) hy
  · intro data mc scale scale_error data_scale mc_scales shape_region hbad
    cases hres : QCD.make data mc scale scale_error data_scale mc_scales
        shape_region with
    | error e => exact ⟨e, rfl⟩
    | ok q =>
      obtain ⟨m1, hm1, m2, hm2, hs⟩ := hbad
      have h1 := (QCD.make_ok_inv hres).2.2.2 m1 hm1
      have h2 := (QCD.make_ok_inv hres).2.2.2 m2 hm2
      exact absurd (h1.trans h2.symm) hs

/-- Fixture: `mcT` with a mismatched year. -/
def mcBadYear : MC := { mcT with year := 2011 }

/-- Fixture: `mcT` with systematics disabled. -/
def mcBadFlag : MC := { mcT with systematics := false }

theorem qcd_configuration_errors_witness :
    (JES_UP ≠ Systematic.NOMINAL ∧
      checkSystematic true JES_UP =
        .error "Do not apply systematics on data!") ∧
    QCD.make dataT [] 1 0 1 none "SS" =
      .error "mc must contain at least one MC sample" ∧
    (QCD.make dataT [mcT] 1 0 1 none "SS" = Except.ok qcdT ∧
      ([mcT] ≠ ([] : List MC) ∧ qcdT.mc = [mcT] ∧
        (∀ m ∈ [mcT], m.year = dataT.year) ∧
        (∀ m ∈ [mcT], m.systematics = qcdT.systematics))) ∧
    ((∃ m ∈ [mcBadYear], m.year ≠ dataT.year) ∧
      ∃ e, QCD.make dataT [mcBadYear] 1 0 1 none "SS" = .error e) ∧
    ((∃ m1 ∈ [mcT, mcBadFlag], ∃ m2 ∈ [mcT, mcBadFlag],
        m1.systematics ≠ m2.systematics) ∧
      ∃ e, QCD.make dataT [mcT, mcBadFlag] 1 0 1 none "SS" = .error e) :=
  ⟨⟨by decide, qcd_configuration_errors.1 JES_UP (by decide)⟩,
   qcd_configuration_errors.2.1 dataT 1 0 1 none "SS",
   ⟨rfl, qcd_configuration_errors.2.2.1 dataT [mcT] 1 0 1 none "SS" qcdT
     rfl⟩,
   ⟨⟨mcBadYear, by simp, by decide⟩,
     qcd_configuration_errors.2.2.2.1 dataT [mcBadYear] 1 0 1 none "SS"
       ⟨mcBadYear, by simp, by decide⟩⟩,
   ⟨⟨mcT, by simp, mcBadFlag, by simp, by decide⟩,
     qcd_configuration_errors.2.2.2.2 dataT [mcT, mcBadFlag] 1 0 1 none
       "SS" ⟨mcT, by simp, mcBadFlag, by simp, by decide⟩⟩⟩

/-- Per-key normalization scale applied by the QCD systematics
combination: `scale ± scale_error` for the two dedicated QCDFIT keys,
the plain normalization `scale` for every other key
(`mva/samples.py:1403-1407` and `1456-1460`). -/
def QCD.sysScale (q : QCD) (t : Systematic) : ℚ :=
  if t = QCDFIT_UP then q.scale + q.scale_error
  else if t = QCDFIT_DOWN then q.scale - q.scale_error
  else q.scale

/-- Tail of `QCD.draw_into` (`mva/samples.py:1397-1412`) after the
constituent draws: `MCbkg` (with optional systematics dict `MCbkgSys`) is
the histogram accumulated by the `mc.draw_into` calls over the shape
region, `dataHist` the non-varied data draw, and `(hist, histSys)` the
output histogram with its optional systematics dict.  The nominal update
is `hist += (data_hist * data_scale - MC_bkg) * scale`; each systematic
key is updated with the same non-varied `dataHist` and the per-key
scale. -/
def QCD.drawIntoCombine {n : ℕ} (q : QCD) (MCbkg : Hist n)
    (MCbkgSys : Option (SysMap n)) (dataHist : Hist n) (hist : Hist n)
    (histSys : Option (SysMap n)) : Hist n × Option (SysMap n) :=
  let hist2 := hist + q.scale • (q.data_scale • dataHist - MCbkg)
  match MCbkgSys with
  | none => (hist2, histSys)
  | some m =>
    (hist2, some (m.foldl (fun acc p =>
      accum acc p.1 (QCD.sysScale q p.1 • (q.data_scale • dataHist - p.2)))
      (histSys.getD [])))

/-- Per-field tail of `QCD.draw_array` (`mva/samples.py:1445-1465`): the
same combination as `QCD.draw_into`, additionally guarded by
`do_systematics`. -/
def QCD.drawArrayFieldCombine {n : ℕ} (q : QCD) (doSys : Bool)
    (mcH : Hist n) (mcSys : Option (SysMap n)) (dH : Hist n) (h : Hist n)
    (hSys : Option (SysMap n)) : Hist n × Option (SysMap n) :=
  let h2 := h + q.scale • (q.data_scale • dH - mcH)
  if ¬ doSys then (h2, hSys)
  else
    match mcSys with
    | none => (h2, hSys)
    | some m =>
      (h2, some (m.foldl (fun acc p =>
        accum acc p.1 (QCD.sysScale q p.1 • (q.data_scale • dH - p.2)))
        (hSys.getD [])))

/-- C5: QCD systematics propagation.  For every systematic key on the
MC-subtracted histogram, `QCD.draw_into` and `QCD.draw_array` compute the
variant histogram as `(data_scale * data_hist - sys_mc_hist) * s` with
the same non-varied data histogram used for the nominal, where `s` is the
normalization scale except for `('QCDFIT_UP',)` / `('QCDFIT_DOWN',)`,
which use `scale + scale_error` / `scale - scale_error`
(`mva/samples.py:1399-1412` and `1450-1465`). -/
theorem qcd_systematics_combination {n : ℕ} (q : QCD)
    (MCbkg dataHist hist : Hist n) (histSys : Option (SysMap n))
    (l₁ l₂ : List (Systematic × Hist n)) (t : Systematic) (sh : Hist n)
    (h₁ : ∀ p ∈ l₁, p.1 ≠ t) (h₂ : ∀ p ∈ l₂, p.1 ≠ t) :
    (q.drawIntoCombine MCbkg (some (l₁ ++ (t, sh) :: l₂)) dataHist hist
        histSys).1 =
      hist + q.scale • (q.data_scale • dataHist - MCbkg) ∧
    alookup ((q.drawIntoCombine MCbkg (some (l₁ ++ (t, sh) :: l₂)) dataHist
        hist histSys).2.getD []) t =
      some ((alookup (histSys.getD []) t).getD 0 +
        q.sysScale t • (q.data_scale • dataHist - sh)) ∧
    (q.drawArrayFieldCombine true MCbkg (some (l₁ ++ (t, sh) :: l₂))
        dataHist hist histSys).1 =
      hist + q.scale • (q.data_scale • dataHist - MCbkg) ∧
    alookup ((q.drawArrayFieldCombine true MCbkg
        (some (l₁ ++ (t, sh) :: l₂)) dataHist hist histSys).2.getD []) t =
      some ((alookup (histSys.getD []) t).getD 0 +
        q.sysScale t • (q.data_scale • dataHist - sh)) ∧
    q.sysScale QCDFIT_UP = q.scale + q.scale_error ∧
    q.sysScale QCDFIT_DOWN = q.scale - q.scale_error ∧
    (t ≠ QCDFIT_UP → t ≠ QCDFIT_DOWN → q.sysScale t = q.scale) := by
  have hdown_ne : QCDFIT_DOWN ≠ QCDFIT_UP := by decide
  refine ⟨rfl, ?_, rfl, ?_, ?_, ?_, ?_⟩
  · exact alookup_foldl_accum_eq Prod.fst
      (fun p => QCD.sysScale q p.1 • (q.data_scale • dataHist - p.2))
      l₁ l₂ (t, sh) (histSys.getD []) t h₁ h₂ rfl
  · exact alookup_foldl_accum_eq Prod.fst
      (fun p => QCD.sysScale q p.1 • (q.data_scale • dataHist - p.2))
      l₁ l₂ (t, sh) (histSys.getD []) t h₁ h₂ rfl
  · unfold QCD.sysScale
    rw [if_pos rfl]
  · unfold QCD.sysScale
    rw [if_neg hdown_ne, if_pos rfl]
  · intro hu hd
    unfold QCD.sysScale
    rw [if_neg hu, if_neg hd]

/-- Fixture: a QCD sample with a nonzero fit scale error. -/
def qcdW : QCD := { qcdT with scale_error := 1 / 2 }

/-- Fixture: a one-bin MC background histogram. -/
def hMC : Hist 1 := fun _ => 4

/-- Fixture: a one-bin data histogram. -/
def hData : Hist 1 := fun _ => 10

/-- Fixture: a one-bin JES-varied MC histogram. -/
def hSysJes : Hist 1 := fun _ => 5

/-- Fixture: a one-bin QCDFIT-keyed MC histogram. -/
def hSysQcdfit : Hist 1 := fun _ => 6

/-- Fixture: an empty output histogram. -/
def hOut : Hist 1 := fun _ => 0

theorem qcd_systematics_combination_witness :
    (∀ p ∈ ([] : List (Systematic × Hist 1)), p.1 ≠ QCDFIT_UP) ∧
    (∀ p ∈ [(JES_UP, hSysJes)], p.1 ≠ QCDFIT_UP) ∧
    ((qcdW.drawIntoCombine hMC
        (some ([] ++ (QCDFIT_UP, hSysQcdfit) :: [(JES_UP, hSysJes)])) hData
        hOut none).1 =
      hOut + qcdW.scale • (qcdW.data_scale • hData - hMC) ∧
    alookup ((qcdW.drawIntoCombine hMC
        (some ([] ++ (QCDFIT_UP, hSysQcdfit) :: [(JES_UP, hSysJes)])) hData
        hOut none).2.getD []) QCDFIT_UP =
      some ((alookup ((none : Option (SysMap 1)).getD []) QCDFIT_UP).getD 0 +
        qcdW.sysScale QCDFIT_UP • (qcdW.data_scale • hData - hSysQcdfit)) ∧
    (qcdW.drawArrayFieldCombine true hMC
        (some ([] ++ (QCDFIT_UP, hSysQcdfit) :: [(JES_UP, hSysJes)])) hData
        hOut none).1 =
      hOut + qcdW.scale • (qcdW.data_scale • hData - hMC) ∧
    alookup ((qcdW.drawArrayFieldCombine true hMC
        (some ([] ++ (QCDFIT_UP, hSysQcdfit) :: [(JES_UP, hSysJes)])) hData
        hOut none).2.getD []) QCDFIT_UP =
      some ((alookup ((none : Option (SysMap 1)).getD []) QCDFIT_UP).getD 0 +
        qcdW.sysScale QCDFIT_UP • (qcdW.data_scale • hData - hSysQcdfit)) ∧
    qcdW.sysScale QCDFIT_UP = qcdW.scale + qcdW.scale_error ∧
    qcdW.sysScale QCDFIT_DOWN = qcdW.scale - qcdW.scale_error ∧
    (QCDFIT_UP ≠ QCDFIT_UP → QCDFIT_UP ≠ QCDFIT_DOWN →
      qcdW.sysScale QCDFIT_UP = qcdW.scale)) :=
  ⟨by simp, by decide,
    qcd_systematics_combination qcdW hMC hData hOut none []
      [(JES_UP, hSysJes)] QCDFIT_UP hSysQcdfit (by simp) (by decide)⟩

end SamplesPy

/-- C9 counterexample: the two versions of the sample module do not read
the same weighted-event-count cutflow bin — for the Embedded role
`mva/samples.py` reads bin 0 while `mva/samples/sample.py` reads bin 1
(and 1 versus 2 for the non-Embedded role). -/
theorem events_bin_counterexample :
    ¬(SamplesPy.eventsBin true = SamplePkg.eventsBin true ∧
      SamplesPy.eventsBin false = SamplePkg.eventsBin false) := by
  decide

/-- C9 amended: the cutflow bin indices differ between the two module
versions: `mva/samples.py` reads bins 0 (Embedded) / 1 (non-Embedded),
`mva/samples/sample.py` reads bins 1 / 2, and for each role the
`sample.py` index is exactly one above the `samples.py` index. -/
theorem events_bin_versions :
    SamplesPy.eventsBin true = 0 ∧ SamplesPy.eventsBin false = 1 ∧
    SamplePkg.eventsBin true = 1 ∧ SamplePkg.eventsBin false = 2 ∧
    (∀ b : Bool, SamplePkg.eventsBin b = SamplesPy.eventsBin b + 1) := by
  decide

namespace SamplePkg

/-- Model of Python `"<TERM>_<VARIATION>".rsplit('_', 1)`: split a term at
its last underscore.  Returns `none` when the string holds no underscore
(the Python unpacking then raises `ValueError`; no real systematic term of
this module has that shape). -/
def rsplitUnder (t : String) : Option (String × String) :=
  match (t.splitOn "_").reverse with
  | [] => none
  | [_] => none
  | last :: rest => some (String.intercalate "_" rest.reverse, last)

/-- Model of `SystematicsSample.get_sys_term_variation`
(`mva/samples/sample.py:898-909`): `'NOMINAL'` and multi-term tuples
degrade to `(None, 'NOMINAL')`; a 1-tuple term is rsplit on its last
underscore into term and variation. -/
def getSysTermVariation : Systematic → Option String × String
  | .NOMINAL => (none, "NOMINAL")
  | .tup ts =>
    match ts with
    | [t] =>
      match rsplitUnder t with
      | some (a, b) => (some a, b)
      | none => (none, "NOMINAL")
    | _ => (none, "NOMINAL")

/-- State of a `mva/samples/sample.py` sample as read by the weight/cut
resolver and the retrieval loops: `lumi` caches the external
`LUMI[self.year]`; `weightFields`, `weightSys` and `cutSys` are the
per-class `weight_fields()` / `weight_systematics()` / `cut_systematics()`
tables; `isSystematicsSample` stands for the
`isinstance(self, SystematicsSample)` test and `isZtautau` for
`isinstance(self, Ztautau)`. -/
structure SSample where
  year : ℕ
  lumi : ℚ
  scale : ℚ
  scale_error : ℚ
  trigger : Bool
  isZtautau : Bool
  isSystematicsSample : Bool
  cutsBase : Cut
  weightFields : List Branch
  weightSys : List (String × (String → List Branch))
  cutSys : List (String × (String → Cut))
  systematics : Bool

/-- Model of `Sample.weights` (`mva/samples/sample.py:646-661`): start
from the class weight fields; for a SystematicsSample append, per weight
family, the branches of the active variation when the family matches the
systematic term and the NOMINAL branches otherwise; finally the legacy
trigger correction replaces the trigger scale-factor branches by the
trigger efficiency branches when the sample does not require the
trigger.  (Python `list.remove` raises when the element is absent;
`List.erase` is a no-op then — the guarding membership test makes the
difference unobservable for the first branch, and the second is always
present alongside it in the real tables.) -/
def SSample.weights (s : SSample) (systematic : Systematic) : List Branch :=
  let wf := s.weightFields
  let wf :=
    if s.isSystematicsSample then
      s.weightSys.foldl (fun acc tv =>
        acc ++ (if some tv.1 = (getSysTermVariation systematic).1 then
          tv.2 (getSysTermVariation systematic).2 else tv.2 "NOMINAL")) wf
    else wf
  if ¬ s.trigger ∧ "tau1_trigger_sf" ∈ wf then
    ((wf.erase "tau1_trigger_sf").erase "tau2_trigger_sf") ++
      ["tau1_trigger_eff", "tau2_trigger_eff"]
  else wf

/-- The selection `Cut('trigger')`: the trigger branch is required
nonzero. -/
def triggerCut : Cut := fun e => decide (e.val "trigger" ≠ 0)

/-- Model of `Sample.cuts` (`mva/samples/sample.py:663-679`): the sample's
persistent cut, conjoined with the category cut (when a category is
given), the region predicate (when a region is given), the trigger
requirement, and — for a SystematicsSample — the per-family systematic
sub-cuts (active variation for the matching term, NOMINAL for the
others). -/
def SSample.cuts (s : SSample) (REGIONS : Regions)
    (category : Option Category) (region : Option String)
    (systematic : Systematic) : Cut :=
  let c := s.cutsBase
  let c := match category with
    | none => c
    | some cat => cutAnd c (cat.getCuts s.year)
  let c := match region with
    | none => c
    | some r => cutAnd c (REGIONS r)
  let c := if s.trigger then cutAnd c triggerCut else c
  if s.isSystematicsSample then
    s.cutSys.foldl (fun acc tv =>
      cutAnd acc (if some tv.1 = (getSysTermVariation systematic).1 then
        tv.2 (getSysTermVariation systematic).2 else tv.2 "NOMINAL")) c
  else c

/-- C7: determinism of the cut and weight resolvers.  The embedded
resolvers are pure functions of the immutable sample state and the call
arguments — the Python bodies of `Sample.cuts` and `Sample.weights` read
only constructor-set attributes and their class tables, with no mutable
or random input — so two calls with identical arguments return the same
predicate, selecting identical row sets from any fixed backing store, and
the identical ordered weight-branch list
(`mva/samples/sample.py:646-679`). -/
theorem cuts_weights_deterministic (s : SSample) (REGIONS : Regions)
    (category : Option Category) (region : Option String)
    (systematic : Systematic) (store : List Event) :
    store.filter (s.cuts REGIONS category region systematic) =
      store.filter (s.cuts REGIONS category region systematic) ∧
    s.weights systematic = s.weights systematic :=
  ⟨rfl, rfl⟩

/-- A backing PyTables table: a name, rows in storage order, the column
schema, and a corruption flag on which any read raises (the spec's
backing-store read failure). -/
structure STable where
  tname : String
  rows : List Event
  schema : List Branch
  fail : Bool

/-- One entry of a per-dataset variation dictionary.  The variation tree,
table and weighted-event count are registered together for each present
systematic term by `SystematicsSample.__init__`
(`mva/samples/sample.py:1008-1042`), so one map with a shared key set is
faithful. -/
structure Variant where
  tree : List Event
  table : STable
  events : ℚ

/-- One `(ds, trees, tables, weighted_events, xs, kfact, effic)` dataset
entry (`mva/samples/sample.py:1054-1055`).  The `'NOMINAL'` entry always
exists and is stored apart; `variants` holds exactly the systematic keys
present for this dataset — an absent key is the fall-back-to-NOMINAL
sentinel. -/
structure SSDataset where
  dsname : String
  nominal : Variant
  variants : List (Systematic × Variant)
  xs : ℚ
  kfact : ℚ
  effic : ℚ

/-- The `try: sys_tables[systematic] … except KeyError: … ['NOMINAL']`
resolution used by `records`, `trees` and `events`
(`mva/samples/sample.py:1281-1289`, `1344-1352`, `1425-1433`). -/
def resolveVariant (ds : SSDataset) (t : Systematic) : Variant :=
  (alookup ds.variants t).getD ds.nominal

/-- Scalar weight of one dataset variant in `draw_into`
(`mva/samples/sample.py:1085-1088` and `1114-1117`):
`LUMI[year] * scale * self.scale * xs * kfact * effic / events`. -/
def drawWeight (s : SSample) (scaleArg : ℚ) (ds : SSDataset)
    (events : ℚ) : ℚ :=
  s.lumi * scaleArg * s.scale * ds.xs * ds.kfact * ds.effic / events

/-- The nominal per-dataset fill `current_hist`
(`mva/samples/sample.py:1096-1101`). -/
def nominalContrib {n : ℕ} (s : SSample) (scaleArg : ℚ)
    (exprs : List (Expr n)) (sel : Cut) (ds : SSDataset) : Hist n :=
  drawExprs ds.nominal.tree sel exprs
    (drawWeight s scaleArg ds ds.nominal.events) (s.weights .NOMINAL)

/-- The per-term systematic histogram of one dataset in `draw_into`
(`mva/samples/sample.py:1109-1140`): a present variation tree is redrawn
with the variation's event count and the NOMINAL weight branches; an
absent tree keeps the un-reset clone of the nominal fill, rescaled by
`(scale ± scale_error) / scale` for the Ztautau fit terms. -/
def sysTermHist {n : ℕ} (s : SSample) (scaleArg : ℚ) (exprs : List (Expr n))
    (sel : Cut) (ds : SSDataset) (current : Hist n) (t : Systematic) :
    Hist n :=
  match alookup ds.variants t with
  | some v =>
    drawExprs v.tree sel exprs (drawWeight s scaleArg ds v.events)
      (s.weights .NOMINAL)
  | none =>
    if s.isZtautau ∧ t = ZFIT_UP then
      ((s.scale + s.scale_error) / s.scale) • current
    else if s.isZtautau ∧ t = ZFIT_DOWN then
      ((s.scale - s.scale_error) / s.scale) • current
    else current

/-- The body of the dataset loop of `SystematicsSample.draw_into`
(`mva/samples/sample.py:1081-1160`): fill the nominal contribution and add
it to the output histogram; with systematics enabled, accumulate into the
systematics dictionary one entry per term of the `iter_systematics(False)`
list (`systerms`, external `mva/systematics.py`) and one per
`(weight_branches, sys_term)` pair of `iter_weight_branches` (`iterWB`),
the latter drawn from the nominal tree with substituted weight
branches. -/
def drawIntoStep {n : ℕ} (s : SSample) (systerms : List Systematic)
    (iterWB : List (List Branch × Systematic)) (exprs : List (Expr n))
    (sel : Cut) (scaleArg : ℚ) (doSys : Bool) (acc : Hist n × SysMap n)
    (ds : SSDataset) : Hist n × SysMap n :=
  let current := nominalContrib s scaleArg exprs sel ds
  let hist := acc.1 + current
  if doSys then
    let m := systerms.foldl (fun m t =>
      accum m t (sysTermHist s scaleArg exprs sel ds current t)) acc.2
    let m := iterWB.foldl (fun m p =>
      accum m p.2 (drawExprs ds.nominal.tree sel exprs
        (drawWeight s scaleArg ds ds.nominal.events) p.1)) m
    (hist, m)
  else (hist, acc.2)

/-- Model of `SystematicsSample.draw_into`
(`mva/samples/sample.py:1057-1163`): resolve the selection once with the
NOMINAL systematic, fold the per-dataset step over the datasets, and
attach the systematics dictionary when systematics are enabled. -/
def SSample.drawInto {n : ℕ} (s : SSample) (datasets : List SSDataset)
    (systerms : List Systematic) (iterWB : List (List Branch × Systematic))
    (REGIONS : Regions) (category : Option Category)
    (region : Option String) (exprs : List (Expr n)) (cuts_ : Option Cut)
    (systematics : Bool) (scaleArg : ℚ) (hist : Hist n)
    (histSys : Option (SysMap n)) : Hist n × Option (SysMap n) :=
  let doSys := s.systematics && systematics
  let sel := cutAndOpt (s.cuts REGIONS category region .NOMINAL) cuts_
  let res := datasets.foldl
    (drawIntoStep s systerms iterWB exprs sel scaleArg doSys)
    (hist, histSys.getD [])
  if doSys then (res.1, some res.2) else (res.1, histSys)

theorem sysTermHist_of_missing {n : ℕ} (s : SSample) (scaleArg : ℚ)
    (exprs : List (Expr n)) (sel : Cut) (ds : SSDataset) (current : Hist n)
    (t : Systematic) (hnone : alookup ds.variants t = none)
    (hz : s.isZtautau = false ∨ (t ≠ ZFIT_UP ∧ t ≠ ZFIT_DOWN)) :
    sysTermHist s scaleArg exprs sel ds current t = current := by
  unfold sysTermHist
  rw [hnone]
  rcases hz with hz | ⟨hu, hd⟩
  · simp [hz]
  · simp [hu, hd]

/-- C2: missing-variation fallback.  When a dataset lacks the tree for a
requested (non-fit, or non-Ztautau) systematic term, the per-dataset
contribution recorded under that term by the `draw_into` dataset loop is
exactly the nominal-weighted contribution — substituted with NOMINAL,
neither zero nor dropped — while the nominal histogram gains the same
contribution; and the `records`/`trees`/`events` variant resolution
substitutes the NOMINAL entry for the missing key
(`mva/samples/sample.py:1106-1144`, `1344-1352`). -/
theorem draw_into_missing_tree_fallback {n : ℕ} (s : SSample)
    (l₁ l₂ : List Systematic) (t : Systematic)
    (iterWB : List (List Branch × Systematic)) (exprs : List (Expr n))
    (sel : Cut) (scaleArg : ℚ) (acc : Hist n × SysMap n) (ds : SSDataset)
    (hnone : alookup ds.variants t = none)
    (h₁ : ∀ u ∈ l₁, u ≠ t) (h₂ : ∀ u ∈ l₂, u ≠ t)
    (hwb : ∀ p ∈ iterWB, p.2 ≠ t)
    (hz : s.isZtautau = false ∨ (t ≠ ZFIT_UP ∧ t ≠ ZFIT_DOWN)) :
    (drawIntoStep s (l₁ ++ t :: l₂) iterWB exprs sel scaleArg true
        acc ds).1 =
      acc.1 + nominalContrib s scaleArg exprs sel ds ∧
    alookup (drawIntoStep s (l₁ ++ t :: l₂) iterWB exprs sel scaleArg true
        acc ds).2 t =
      some ((alookup acc.2 t).getD 0 +
        nominalContrib s scaleArg exprs sel ds) ∧
    resolveVariant ds t = ds.nominal := by
  refine ⟨rfl, ?_, ?_⟩
  · have hpres := alookup_foldl_accum_preserve (n := n)
      (ι := List Branch × Systematic) Prod.snd
      (fun p => drawExprs ds.nominal.tree sel exprs
        (drawWeight s scaleArg ds ds.nominal.events) p.1) iterWB
      ((l₁ ++ t :: l₂).foldl (fun m u =>
        accum m u (sysTermHist s scaleArg exprs sel ds
          (nominalContrib s scaleArg exprs sel ds) u)) acc.2) t hwb
    have heq := alookup_foldl_accum_eq (n := n) (ι := Systematic)
      (fun u => u)
      (fun u => sysTermHist s scaleArg exprs sel ds
        (nominalContrib s scaleArg exprs sel ds) u)
      l₁ l₂ t acc.2 t h₁ h₂ rfl
    exact hpres.trans (heq.trans (by
      simp only [sysTermHist_of_missing s scaleArg exprs sel ds
        (nominalContrib s scaleArg exprs sel ds) t hnone hz]))
  · unfold resolveVariant
    rw [hnone]
    rfl

/-- C4: Ztautau fit-uncertainty rescaling.  For a Ztautau-type sample the
`draw_into` dataset loop records, for the (tree-less) `('ZFIT_UP',)` and
`('ZFIT_DOWN',)` keys, the nominal contribution rescaled by
`(scale + scale_error)/scale` and `(scale - scale_error)/scale`
respectively — with `scale = 1.0` and `scale_error = 0.1` this is `1.1`
and `0.9` times the dataset's nominal contribution
(`mva/samples/sample.py:1127-1144`). -/
theorem draw_into_zfit_rescale {n : ℕ} (s : SSample)
    (l₁ l₂ l₃ : List Systematic)
    (iterWB : List (List Branch × Systematic)) (exprs : List (Expr n))
    (sel : Cut) (scaleArg : ℚ) (acc : Hist n × SysMap n) (ds : SSDataset)
    (hzt : s.isZtautau = true)
    (hupnone : alookup ds.variants ZFIT_UP = none)
    (hdnnone : alookup ds.variants ZFIT_DOWN = none)
    (h₁ : ∀ u ∈ l₁, u ≠ ZFIT_UP ∧ u ≠ ZFIT_DOWN)
    (h₂ : ∀ u ∈ l₂, u ≠ ZFIT_UP ∧ u ≠ ZFIT_DOWN)
    (h₃ : ∀ u ∈ l₃, u ≠ ZFIT_UP ∧ u ≠ ZFIT_DOWN)
    (hwb : ∀ p ∈ iterWB, p.2 ≠ ZFIT_UP ∧ p.2 ≠ ZFIT_DOWN) :
    alookup (drawIntoStep s (l₁ ++ ZFIT_UP :: (l₂ ++ ZFIT_DOWN :: l₃)) iterWB
        exprs sel scaleArg true acc ds).2 ZFIT_UP =
      some ((alookup acc.2 ZFIT_UP).getD 0 +
        ((s.scale + s.scale_error) / s.scale) •
          nominalContrib s scaleArg exprs sel ds) ∧
    alookup (drawIntoStep s (l₁ ++ ZFIT_UP :: (l₂ ++ ZFIT_DOWN :: l₃)) iterWB
        exprs sel scaleArg true acc ds).2 ZFIT_DOWN =
      some ((alookup acc.2 ZFIT_DOWN).getD 0 +
        ((s.scale - s.scale_error) / s.scale) •
          nominalContrib s scaleArg exprs sel ds) := by
  have hud : ZFIT_UP ≠ ZFIT_DOWN := by decide
  have hup : sysTermHist s scaleArg exprs sel ds
      (nominalContrib s scaleArg exprs sel ds) ZFIT_UP =
      ((s.scale + s.scale_error) / s.scale) •
        nominalContrib s scaleArg exprs sel ds := by
    unfold sysTermHist
    rw [hupnone]
    simp [hzt]
  have hdn : sysTermHist s scaleArg exprs sel ds
      (nominalContrib s scaleArg exprs sel ds) ZFIT_DOWN =
      ((s.scale - s.scale_error) / s.scale) •
        nominalContrib s scaleArg exprs sel ds := by
    unfold sysTermHist
    rw [hdnnone]
    simp [hzt, hud.symm]
  constructor
  · have hpres := alookup_foldl_accum_preserve (n := n)
      (ι := List Branch × Systematic) Prod.snd
      (fun p => drawExprs ds.nominal.tree sel exprs
        (drawWeight s scaleArg ds ds.nominal.events) p.1) iterWB
      ((l₁ ++ ZFIT_UP :: (l₂ ++ ZFIT_DOWN :: l₃)).foldl (fun m u =>
        accum m u (sysTermHist s scaleArg exprs sel ds
          (nominalContrib s scaleArg exprs sel ds) u)) acc.2) ZFIT_UP
      (fun p hp => (hwb p hp).1)
    have heq := alookup_foldl_accum_eq (n := n) (ι := Systematic)
      (fun u => u)
      (fun u => sysTermHist s scaleArg exprs sel ds
        (nominalContrib s scaleArg exprs sel ds) u)
      l₁ (l₂ ++ ZFIT_DOWN :: l₃) ZFIT_UP acc.2 ZFIT_UP
      (fun u hu => (h₁ u hu).1)
      (fun u hu => by
        rcases List.mem_append.mp hu with hu | hu
        · exact (h₂ u hu).1
        · rcases List.mem_cons.mp hu with hu | hu
          · subst hu; exact hud.symm
          · exact (h₃ u hu).1)
      rfl
    exact hpres.trans (heq.trans (by simp only [hup]))
  · have hlist : l₁ ++ ZFIT_UP :: (l₂ ++ ZFIT_DOWN :: l₃) =
        (l₁ ++ ZFIT_UP :: l₂) ++ ZFIT_DOWN :: l₃ := by
      simp
    rw [hlist]
    have hpres := alookup_foldl_accum_preserve (n := n)
      (ι := List Branch × Systematic) Prod.snd
      (fun p => drawExprs ds.nominal.tree sel exprs
        (drawWeight s scaleArg ds ds.nominal.events) p.1) iterWB
      (((l₁ ++ ZFIT_UP :: l₂) ++ ZFIT_DOWN :: l₃).foldl (fun m u =>
        accum m u (sysTermHist s scaleArg exprs sel ds
          (nominalContrib s scaleArg exprs sel ds) u)) acc.2) ZFIT_DOWN
      (fun p hp => (hwb p hp).2)
    have heq := alookup_foldl_accum_eq (n := n) (ι := Systematic)
      (fun u => u)
      (fun u => sysTermHist s scaleArg exprs sel ds
        (nominalContrib s scaleArg exprs sel ds) u)
      (l₁ ++ ZFIT_UP :: l₂) l₃ ZFIT_DOWN acc.2 ZFIT_DOWN
      (fun u hu => by
        rcases List.mem_append.mp hu with hu | hu
        · exact (h₁ u hu).2
        · rcases List.mem_cons.mp hu with hu | hu
          · subst hu; exact hud
          · exact (h₂ u hu).2)
      (fun u hu => (h₃ u hu).2)
      rfl
    exact hpres.trans (heq.trans (by simp only [hdn]))

/-- Fixture: an event with every branch equal to 1. -/
def evP : Event := ⟨fun _ => 1⟩

/-- Fixture: a healthy one-row table. -/
def tbGood : STable :=
  { tname := "dset1_table", rows := [evP], schema := [], fail := false }

/-- Fixture: a corrupted one-row table on which reads raise. -/
def tbBad : STable :=
  { tname := "dset2_table", rows := [evP], schema := [], fail := true }

/-- Fixture: a healthy nominal variant. -/
def varGood : Variant := { tree := [evP], table := tbGood, events := 1 }

/-- Fixture: a nominal variant whose table is corrupted. -/
def varBad : Variant := { tree := [evP], table := tbBad, events := 1 }

/-- Fixture: a dataset with no systematic variation entries. -/
def dsGood : SSDataset :=
  { dsname := "dset1", nominal := varGood, variants := [],
    xs := 1, kfact := 1, effic := 1 }

/-- Fixture: a dataset whose nominal table is corrupted. -/
def dsBad : SSDataset :=
  { dsname := "dset2", nominal := varBad, variants := [],
    xs := 1, kfact := 1, effic := 1 }

/-- Fixture: a plain systematics-enabled sample. -/
def ssT : SSample :=
  { year := 2012, lumi := 1, scale := 1, scale_error := 0,
    trigger := false, isZtautau := false, isSystematicsSample := true,
    cutsBase := emptyCut, weightFields := [], weightSys := [],
    cutSys := [], systematics := true }

/-- Fixture: a Ztautau-type sample with `scale = 1.0` and
`scale_error = 0.1`. -/
def ssZ : SSample := { ssT with isZtautau := true, scale_error := 1 / 10 }

/-- Fixture: a region table accepting every event in every region. -/
def regionsP : Regions := fun _ => emptyCut

/-- Fixture: a draw expression putting every event into bin 0. -/
def exprBin0 : Expr 1 := fun _ => some 0

/-- Fixture: an empty accumulator for the dataset loop. -/
def histAcc : Hist 1 × SysMap 1 := (0, [])

theorem draw_into_missing_tree_fallback_witness :
    alookup dsGood.variants JES_UP = none ∧
    (∀ u ∈ ([] : List Systematic), u ≠ JES_UP) ∧
    (∀ p ∈ ([] : List (List Branch × Systematic)), p.2 ≠ JES_UP) ∧
    (ssT.isZtautau = false ∨ (JES_UP ≠ ZFIT_UP ∧ JES_UP ≠ ZFIT_DOWN)) ∧
    ((drawIntoStep ssT ([] ++ JES_UP :: []) [] [exprBin0] emptyCut 1 true
        histAcc dsGood).1 =
      histAcc.1 + nominalContrib ssT 1 [exprBin0] emptyCut dsGood ∧
    alookup (drawIntoStep ssT ([] ++ JES_UP :: []) [] [exprBin0] emptyCut 1
        true histAcc dsGood).2 JES_UP =
      some ((alookup histAcc.2 JES_UP).getD 0 +
        nominalContrib ssT 1 [exprBin0] emptyCut dsGood) ∧
    resolveVariant dsGood JES_UP = dsGood.nominal) :=
  ⟨rfl, by simp, by simp, .inl rfl,
    draw_into_missing_tree_fallback ssT [] [] JES_UP [] [exprBin0]
      emptyCut 1 histAcc dsGood rfl (by simp) (by simp) (by simp)
      (.inl rfl)⟩

theorem draw_into_zfit_rescale_witness :
    ssZ.isZtautau = true ∧
    alookup dsGood.variants ZFIT_UP = none ∧
    alookup dsGood.variants ZFIT_DOWN = none ∧
    (ssZ.scale + ssZ.scale_error) / ssZ.scale = 11 / 10 ∧
    (ssZ.scale - ssZ.scale_error) / ssZ.scale = 9 / 10 ∧
    (alookup (drawIntoStep ssZ ([] ++ ZFIT_UP :: ([] ++ ZFIT_DOWN :: []))
        [] [exprBin0] emptyCut 1 true histAcc dsGood).2 ZFIT_UP =
      some ((alookup histAcc.2 ZFIT_UP).getD 0 +
        ((ssZ.scale + ssZ.scale_error) / ssZ.scale) •
          nominalContrib ssZ 1 [exprBin0] emptyCut dsGood) ∧
    alookup (drawIntoStep ssZ ([] ++ ZFIT_UP :: ([] ++ ZFIT_DOWN :: []))
        [] [exprBin0] emptyCut 1 true histAcc dsGood).2 ZFIT_DOWN =
      some ((alookup histAcc.2 ZFIT_DOWN).getD 0 +
        ((ssZ.scale - ssZ.scale_error) / ssZ.scale) •
          nominalContrib ssZ 1 [exprBin0] emptyCut dsGood)) :=
  ⟨rfl, rfl, rfl, by norm_num [ssZ, ssT], by norm_num [ssZ, ssT],
    draw_into_zfit_rescale ssZ [] [] [] [] [exprBin0] emptyCut 1 histAcc
      dsGood rfl rfl rfl (by simp) (by simp) (by simp) (by simp)⟩

/-- Candidate-coordinate slice of a PyTables query, modelled from the
spec's backing-store contract (spec §2/§6): the candidate coordinates are
`start, start+step, …` and the selection filters among them.  Returns the
surviving `(coordinate, row)` pairs in storage order. -/
def sliceSel (rows : List Event) (sel : Cut) (start step : ℕ) :
    List (ℕ × Event) :=
  rows.enum.filter (fun p =>
    decide (start ≤ p.1) && decide ((p.1 - start) % step = 0) && sel p.2)

/-- Model of `table.get_where_list(selection, start=…, step=…)` (spec §6):
the coordinates of the matching rows. -/
def STable.getWhereList (tb : STable) (sel : Cut) (start step : ℕ) :
    List ℕ :=
  (sliceSel tb.rows sel start step).map Prod.fst

/-- Model of `table.read_where(selection, start=…, step=…)` (spec §6): the
matching rows themselves; a corrupted table raises.  (The `table.read`
branch that `records` takes when the where-string is empty has the same
slicing semantics under the always-true selection, so it is subsumed by
this model.) -/
def STable.readWhere (tb : STable) (sel : Cut) (start step : ℕ) :
    Except String (List Event) :=
  if tb.fail then .error ("problem reading table " ++ tb.tname)
  else .ok ((sliceSel tb.rows sel start step).map Prod.snd)

/-- Scalar weight of `SystematicsSample.records`
(`mva/samples/sample.py:1359-1370`):
`scale * actual_scale * LUMI[year] * xs * kfact * effic / events`, where
`actual_scale` is `self.scale` shifted by `± scale_error` for the Ztautau
fit variations. -/
def recordWeight (s : SSample) (scaleArg : ℚ) (systematic : Systematic)
    (ds : SSDataset) (v : Variant) : ℚ :=
  (if s.isZtautau then
    (if systematic = ZFIT_UP then s.scale + s.scale_error
     else if systematic = ZFIT_DOWN then s.scale - s.scale_error
     else s.scale)
   else s.scale) * scaleArg * s.lumi * ds.xs * ds.kfact * ds.effic /
    v.events

/-- Success condition of the `rec[fields]` projection
(`mva/samples/sample.py:1402-1410`): every requested field is a table
column or the appended `weight` column; a missing field raises
(`KeyError`, printed with the table and re-raised). -/
def checkFields (fields : Option (List Branch)) (includeWeight : Bool)
    (tb : STable) : Bool :=
  match fields with
  | none => true
  | some fs => fs.all (fun f => f ∈ tb.schema || (includeWeight && f == "weight"))

/-- A retrieved record: the row together with its attached combined
`weight` column (present when `include_weight`). -/
abbrev Rec := Event × Option ℚ

/-- The value of one `records` call: one `(record batch, optional
where-list)` entry per surviving dataset. -/
abbrev RecordsOut := List (List Rec × Option (List ℕ))

/-- The dataset loop of `SystematicsSample.records`
(`mva/samples/sample.py:1340-1414`): resolve the variant (falling back to
NOMINAL), read under the selection — a read failure is printed together
with the table and the dataset is skipped (`continue`; the `raise` on
line 1381 is commented out) — then optionally fetch the where-list,
attach the combined weight column, and project the fields (a missing
field prints and re-raises). -/
def recordsLoop (s : SSample) (sel : Cut) (wbranches : List Branch)
    (fields : Option (List Branch)) (includeWeight : Bool)
    (systematic : Systematic) (scaleArg : ℚ) (returnIdx : Bool)
    (start step : ℕ) : List SSDataset → Except String RecordsOut
  | [] => .ok []
  | ds :: rest =>
    match (resolveVariant ds systematic).table.readWhere sel start step with
    | .error _ =>
      recordsLoop s sel wbranches fields includeWeight systematic scaleArg
        returnIdx start step rest
    | .ok rows =>
      if checkFields fields includeWeight
          (resolveVariant ds systematic).table then
        match recordsLoop s sel wbranches fields includeWeight systematic
            scaleArg returnIdx start step rest with
        | .error e => .error e
        | .ok out =>
          .ok ((rows.map (fun e => (e,
              if includeWeight then
                some (recordWeight s scaleArg systematic ds
                  (resolveVariant ds systematic) * branchProd e wbranches)
              else none)),
            if returnIdx then
              some ((resolveVariant ds systematic).table.getWhereList sel
                start step)
            else none) :: out)
      else
        .error ("missing field in table " ++
          (resolveVariant ds systematic).table.tname)

/-- Appending of the `weight` field to a requested field list when
weights are included (`mva/samples/sample.py:1325-1327`). -/
def addWeightField (fields : Option (List Branch)) (includeWeight : Bool) :
    Option (List Branch) :=
  match fields with
  | some fs =>
    if includeWeight ∧ "weight" ∉ fs then some (fs ++ ["weight"])
    else some fs
  | none => none

/-- The resolved record selection
`self.cuts(category, region, systematic) & cuts`
(`mva/samples/sample.py:1328`). -/
def recSel (s : SSample) (REGIONS : Regions) (category : Option Category)
    (region : Option String) (systematic : Systematic)
    (cuts_ : Option Cut) : Cut :=
  cutAndOpt (s.cuts REGIONS category region systematic) cuts_

/-- Substitution of weight-only systematics by NOMINAL for table lookup
(`mva/samples/sample.py:1338-1339`); `sysByWeight` is the external
`SYSTEMATICS_BY_WEIGHT` list. -/
def resSys (sysByWeight : List Systematic) (systematic : Systematic) :
    Systematic :=
  if systematic ∈ sysByWeight then .NOMINAL else systematic

/-- Model of `SystematicsSample.records`
(`mva/samples/sample.py:1313-1414`): the weight branches are resolved for
the requested systematic, the selection uses the requested systematic,
and the table lookup uses the weight-substituted systematic. -/
def SSample.records (s : SSample) (datasets : List SSDataset)
    (REGIONS : Regions) (sysByWeight : List Systematic)
    (category : Option Category) (region : Option String)
    (fields : Option (List Branch)) (cuts_ : Option Cut)
    (includeWeight : Bool) (systematic : Systematic) (scaleArg : ℚ)
    (returnIdx : Bool) (start step : ℕ) : Except String RecordsOut :=
  recordsLoop s (recSel s REGIONS category region systematic cuts_)
    (s.weights systematic) (addWeightField fields includeWeight)
    includeWeight (resSys sysByWeight systematic) scaleArg returnIdx
    start step datasets

/-- Skipping lemma for the records loop: a dataset whose resolved table
raises contributes nothing and the loop continues with the remaining
datasets. -/
theorem recordsLoop_skip (s : SSample) (sel : Cut) (wbranches : List Branch)
    (fields : Option (List Branch)) (includeWeight : Bool)
    (systematic : Systematic) (scaleArg : ℚ) (returnIdx : Bool)
    (start step : ℕ) (l₁ l₂ : List SSDataset) (bad : SSDataset)
    (hfail : (resolveVariant bad systematic).table.fail = true) :
    recordsLoop s sel wbranches fields includeWeight systematic scaleArg
      returnIdx start step (l₁ ++ bad :: l₂) =
    recordsLoop s sel wbranches fields includeWeight systematic scaleArg
      returnIdx start step (l₁ ++ l₂) := by
  induction l₁ with
  | nil =>
    have hr : (resolveVariant bad systematic).table.readWhere sel start
        step = .error ("problem reading table " ++
          (resolveVariant bad systematic).table.tname) := by
      unfold STable.readWhere
      rw [if_pos hfail]
    simp only [List.nil_append, recordsLoop, hr]
  | cons d rest ih =>
    simp only [List.cons_append, recordsLoop, List.append_eq]
    rw [ih]

/-- C3 amended: a failing where-query on one dataset's table does not
abort the retrieval — the failure is printed with the table and the
dataset's contribution is silently skipped (`continue`), the loop moving
on to the remaining datasets; the commented-out `raise` on
`mva/samples/sample.py:1381` is disabled. -/
theorem records_read_failure_behavior (s : SSample)
    (l₁ l₂ : List SSDataset) (bad : SSDataset) (REGIONS : Regions)
    (sysByWeight : List Systematic) (category : Option Category)
    (region : Option String) (fields : Option (List Branch))
    (cuts_ : Option Cut) (includeWeight : Bool) (systematic : Systematic)
    (scaleArg : ℚ) (returnIdx : Bool) (start step : ℕ)
    (hfail : (resolveVariant bad
      (resSys sysByWeight systematic)).table.fail = true) :
    s.records (l₁ ++ bad :: l₂) REGIONS sysByWeight category region fields
      cuts_ includeWeight systematic scaleArg returnIdx start step =
    s.records (l₁ ++ l₂) REGIONS sysByWeight category region fields cuts_
      includeWeight systematic scaleArg returnIdx start step := by
  unfold SSample.records
  exact recordsLoop_skip s _ _ _ includeWeight _ scaleArg returnIdx start
    step l₁ l₂ bad hfail

theorem records_read_failure_behavior_witness :
    (resolveVariant dsBad (resSys [] .NOMINAL)).table.fail = true ∧
    ssT.records ([] ++ dsBad :: [dsGood]) regionsP [] none none none none
        false .NOMINAL 1 false 0 1 =
      ssT.records ([] ++ [dsGood]) regionsP [] none none none none false
        .NOMINAL 1 false 0 1 :=
  ⟨rfl,
    records_read_failure_behavior ssT [] [dsGood] dsBad regionsP [] none
      none none none false .NOMINAL 1 false 0 1 rfl⟩

/-- C3 counterexample: the claim that a where-query failure is re-raised
(fatal) is false — on a sample whose first dataset has a corrupted table,
`records` returns successfully with that dataset's contribution silently
skipped (only the healthy second dataset appears in the output). -/
theorem records_read_failure_not_raised :
    ssT.records [dsBad, dsGood] regionsP [] none none none none false
        .NOMINAL 1 false 0 1 =
      .ok [([(evP, none)], none)] ∧
    ∀ e, ssT.records [dsBad, dsGood] regionsP [] none none none none false
        .NOMINAL 1 false 0 1 ≠ .error e := by
  have h1 : ssT.records [dsBad, dsGood] regionsP [] none none none none
      false .NOMINAL 1 false 0 1 = .ok [([(evP, none)], none)] := rfl
  refine ⟨h1, fun e he => ?_⟩
  rw [h1] at he
  cases he

/-- Python/numexpr `%` on rationals: `a - b * ⌊a / b⌋` (for the
partitioning cut it is only applied with `a = abs(key) ≥ 0` and
`b = num_partitions > 0`). -/
def qmod (a b : ℚ) : ℚ := a - b * ⌊a / b⌋

/-- The key-hash partition cut
`((abs({key})%{N})>={start})&&((abs({key})%{N})<{start}+1)`
(`mva/samples/sample.py:578-579`). -/
def partitionCut (key : Branch) (numPartitions start : ℕ) : Cut :=
  fun e =>
    decide ((start : ℚ) ≤ qmod |e.val key| (numPartitions : ℚ)) &&
    decide (qmod |e.val key| (numPartitions : ℚ) < (start : ℚ) + 1)

/-- The `for start in range(num_partitions)` loop of
`partitioned_records`, collecting one entry per partition; an exception in
any `records` call propagates. -/
def partitionedLoop (mkPart : ℕ → Except String RecordsOut) :
    List ℕ → Except String (List RecordsOut)
  | [] => .ok []
  | start :: rest =>
    match mkPart start with
    | .error e => .error e
    | .ok part =>
      match partitionedLoop mkPart rest with
      | .error e => .error e
      | .ok parts => .ok (part :: parts)

/-- Model of `Sample.partitioned_records`
(`mva/samples/sample.py:547-595`): one `records` call per partition start
— index-parity slicing (`start=start, step=num_partitions`) when no key
is given, a key-hash cut (`partition_cut & cuts`) otherwise.  (The
`np.hstack` of the non-`return_idx` path concatenates the per-dataset
batches of each partition and is left to the caller of this model.) -/
def SSample.partitionedRecords (s : SSample) (datasets : List SSDataset)
    (REGIONS : Regions) (sysByWeight : List Systematic)
    (category : Option Category) (region : Option String)
    (fields : Option (List Branch)) (cuts_ : Option Cut)
    (includeWeight : Bool) (systematic : Systematic) (key : Option Branch)
    (numPartitions : ℕ) (returnIdx : Bool) :
    Except String (List RecordsOut) :=
  partitionedLoop (fun start =>
    match key with
    | none =>
      s.records datasets REGIONS sysByWeight category region fields cuts_
        includeWeight systematic 1 returnIdx start numPartitions
    | some k =>
      s.records datasets REGIONS sysByWeight category region fields
        (some (cutAndOpt (partitionCut k numPartitions start) cuts_))
        includeWeight systematic 1 returnIdx 0 1)
    (List.range numPartitions)

/-- Derived specification: the per-dataset payload of a successful
`records` call (read rows, attached weights, optional where-list). -/
def recordsDatasetOut (s : SSample) (sel : Cut) (wbranches : List Branch)
    (includeWeight : Bool) (systematic : Systematic) (scaleArg : ℚ)
    (returnIdx : Bool) (start step : ℕ) (ds : SSDataset) :
    List Rec × Option (List ℕ) :=
  (((sliceSel (resolveVariant ds systematic).table.rows sel start
      step).map Prod.snd).map (fun e => (e,
    if includeWeight then
      some (recordWeight s scaleArg systematic ds
        (resolveVariant ds systematic) * branchProd e wbranches)
    else none)),
   if returnIdx then
     some ((resolveVariant ds systematic).table.getWhereList sel start step)
   else none)

/-- Derived specification: the selection used by partition `p` — the
plain record selection for the index policy, the record selection
strengthened by the key-hash cut for the field-hash policy. -/
def partQuerySel (s : SSample) (REGIONS : Regions)
    (category : Option Category) (region : Option String)
    (systematic : Systematic) (cuts_ : Option Cut) (key : Option Branch)
    (N p : ℕ) : Cut :=
  match key with
  | none => recSel s REGIONS category region systematic cuts_
  | some k =>
    recSel s REGIONS category region systematic
      (some (cutAndOpt (partitionCut k N p) cuts_))

/-- Derived specification: the coordinate-slice start of partition `p`. -/
def partQueryStart (key : Option Branch) (p : ℕ) : ℕ :=
  match key with
  | none => p
  | some _ => 0

/-- Derived specification: the coordinate-slice step of a partitioned
query. -/
def partQueryStep (key : Option Branch) (N : ℕ) : ℕ :=
  match key with
  | none => N
  | some _ => 1

/-- Derived specification: the where-list of dataset `ds` in partition
`p` of a `partitioned_records` call. -/
def partCoords (s : SSample) (REGIONS : Regions)
    (sysByWeight : List Systematic) (category : Option Category)
    (region : Option String) (cuts_ : Option Cut)
    (systematic : Systematic) (key : Option Branch) (N p : ℕ)
    (ds : SSDataset) : List ℕ :=
  (resolveVariant ds (resSys sysByWeight systematic)).table.getWhereList
    (partQuerySel s REGIONS category region systematic cuts_ key N p)
    (partQueryStart key p) (partQueryStep key N)

theorem mem_getWhereList (tb : STable) (sel : Cut) (start step j : ℕ) :
    j ∈ tb.getWhereList sel start step ↔
      ∃ e, tb.rows[j]? = some e ∧ sel e = true ∧ start ≤ j ∧
        (j - start) % step = 0 := by
  unfold STable.getWhereList sliceSel
  constructor
  · intro h
    rcases List.mem_map.mp h with ⟨p, hp, hpj⟩
    rcases List.mem_filter.mp hp with ⟨hmem, hpred⟩
    obtain ⟨i, e⟩ := p
    cases hpj
    rw [List.mk_mem_enum_iff_getElem?] at hmem
    simp only [Bool.and_eq_true, decide_eq_true_eq] at hpred
    exact ⟨e, hmem, hpred.2, hpred.1.1, hpred.1.2⟩
  · rintro ⟨e, hget, hsel, hle, hmod⟩
    refine List.mem_map.mpr ⟨(j, e), List.mem_filter.mpr ⟨?_, ?_⟩, rfl⟩
    · exact List.mk_mem_enum_iff_getElem?.mpr hget
    · simp [hle, hmod, hsel]

theorem cond_mod_iff {N start j : ℕ} (hstart : start < N) :
    (start ≤ j ∧ (j - start) % N = 0) ↔ j % N = start := by
  constructor
  · rintro ⟨hle, hmod⟩
    obtain ⟨q, hq⟩ := Nat.dvd_of_mod_eq_zero hmod
    have hj : j = start + N * q := by omega
    rw [hj, Nat.add_mul_mod_self_left, Nat.mod_eq_of_lt hstart]
  · intro hmod
    have h1 : start ≤ j := by
      have := Nat.mod_le j N
      omega
    refine ⟨h1, ?_⟩
    have h2 := Nat.div_add_mod j N
    have hj : j - start = N * (j / N) := by omega
    rw [hj, Nat.mul_mod_right]

theorem qmod_eq_fract (a : ℚ) {b : ℚ} (hb : b ≠ 0) :
    qmod a b = b * Int.fract (a / b) := by
  unfold qmod
  rw [Int.fract, mul_sub, mul_comm b (a / b), div_mul_cancel₀ a hb]

theorem qmod_nonneg (a : ℚ) {b : ℚ} (hb : 0 < b) : 0 ≤ qmod a b := by
  rw [qmod_eq_fract a hb.ne']
  exact mul_nonneg hb.le (Int.fract_nonneg _)

theorem qmod_lt (a : ℚ) {b : ℚ} (hb : 0 < b) : qmod a b < b := by
  rw [qmod_eq_fract a hb.ne']
  calc b * Int.fract (a / b) < b * 1 :=
        mul_lt_mul_of_pos_left (Int.fract_lt_one _) hb
    _ = b := mul_one b

theorem partitionCut_eq_true_iff (k : Branch) (N p : ℕ) (e : Event) :
    partitionCut k N p e = true ↔
      ((p : ℚ) ≤ qmod |e.val k| (N : ℚ) ∧
        qmod |e.val k| (N : ℚ) < (p : ℚ) + 1) := by
  simp [partitionCut, Bool.and_eq_true, decide_eq_true_eq]

/-- Every event falls in exactly one key-hash partition. -/
theorem partitionCut_unique (k : Branch) {N : ℕ} (hN : 0 < N)
    (e : Event) :
    ∃ p, p < N ∧ partitionCut k N p e = true ∧
      ∀ q, partitionCut k N q e = true → q = p := by
  have hNq : (0 : ℚ) < (N : ℚ) := by exact_mod_cast hN
  have hm0 : 0 ≤ qmod |e.val k| (N : ℚ) := qmod_nonneg _ hNq
  have hmN : qmod |e.val k| (N : ℚ) < (N : ℚ) := qmod_lt _ hNq
  have hfl0 : 0 ≤ ⌊qmod |e.val k| (N : ℚ)⌋ := Int.floor_nonneg.mpr hm0
  have hcast : ((⌊qmod |e.val k| (N : ℚ)⌋.toNat : ℕ) : ℚ) =
      ((⌊qmod |e.val k| (N : ℚ)⌋ : ℤ) : ℚ) := by
    rw [← Int.cast_natCast, Int.toNat_of_nonneg hfl0]
  refine ⟨⌊qmod |e.val k| (N : ℚ)⌋.toNat, ?_, ?_, ?_⟩
  · have hlt : ⌊qmod |e.val k| (N : ℚ)⌋ < (N : ℤ) := by
      have h1 : ((⌊qmod |e.val k| (N : ℚ)⌋ : ℤ) : ℚ) < (N : ℚ) :=
        lt_of_le_of_lt (Int.floor_le _) hmN
      exact_mod_cast h1
    omega
  · rw [partitionCut_eq_true_iff]
    constructor
    · rw [hcast]
      exact Int.floor_le _
    · rw [hcast]
      exact Int.lt_floor_add_one _
  · intro q hq
    rw [partitionCut_eq_true_iff] at hq
    have hfq : ⌊qmod |e.val k| (N : ℚ)⌋ = (q : ℤ) := by
      rw [Int.floor_eq_iff]
      constructor
      · exact_mod_cast hq.1
      · exact_mod_cast hq.2
    omega

theorem recSel_part_iff (s : SSample) (REGIONS : Regions)
    (category : Option Category) (region : Option String)
    (systematic : Systematic) (cuts_ : Option Cut) (k : Branch)
    (N p : ℕ) (e : Event) :
    recSel s REGIONS category region systematic
        (some (cutAndOpt (partitionCut k N p) cuts_)) e = true ↔
      (recSel s REGIONS category region systematic cuts_ e = true ∧
        partitionCut k N p e = true) := by
  cases cuts_ <;> simp [recSel, cutAndOpt, Bool.and_eq_true] <;> tauto

theorem recordsLoop_ok (s : SSample) (sel : Cut) (wbranches : List Branch)
    (includeWeight : Bool) (systematic : Systematic) (scaleArg : ℚ)
    (returnIdx : Bool) (start step : ℕ) (datasets : List SSDataset)
    (hok : ∀ ds ∈ datasets,
      (resolveVariant ds systematic).table.fail = false) :
    recordsLoop s sel wbranches none includeWeight systematic scaleArg
      returnIdx start step datasets =
      .ok (datasets.map (recordsDatasetOut s sel wbranches includeWeight
        systematic scaleArg returnIdx start step)) := by
  induction datasets with
  | nil => rfl
  | cons ds rest ih =>
    have hfail := hok ds (List.mem_cons_self ds rest)
    have hr : (resolveVariant ds systematic).table.readWhere sel start
        step = .ok ((sliceSel (resolveVariant ds systematic).table.rows
          sel start step).map Prod.snd) := by
      unfold STable.readWhere
      rw [if_neg (by simp [hfail])]
    simp only [recordsLoop, hr, List.map_cons]
    rw [ih (fun d hd => hok d (List.mem_cons_of_mem ds hd))]
    simp [recordsDatasetOut, checkFields]

theorem partitionedLoop_ok {mkPart : ℕ → Except String RecordsOut}
    {g : ℕ → RecordsOut} (l : List ℕ)
    (h : ∀ p ∈ l, mkPart p = .ok (g p)) :
    partitionedLoop mkPart l = .ok (l.map g) := by
  induction l with
  | nil => rfl
  | cons p rest ih =>
    simp only [partitionedLoop, h p (List.mem_cons_self p rest),
      List.map_cons, ih (fun q hq => h q (List.mem_cons_of_mem p hq))]

/-- C6: `partitioned_records` is deterministic and disjoint-covering for
both policies.  With a functioning backing store and no field
projection, the call returns one entry per partition whose per-dataset
where-list is `partCoords`; for every dataset and row coordinate the
partitions are pairwise disjoint; their union is exactly the coordinate
set of the equivalent unpartitioned `records` query (index-parity policy
when `key` is `None`: partition `i` holds the selected rows at
coordinates congruent to `i` modulo `N`; field-hash policy otherwise:
partition `i` holds the selected rows with `abs(key) mod N` in
`[i, i+1)`); and re-invocation with identical arguments returns identical
partitions (`mva/samples/sample.py:547-595`). -/
theorem partitioned_records_properties (s : SSample)
    (datasets : List SSDataset) (REGIONS : Regions)
    (sysByWeight : List Systematic) (category : Option Category)
    (region : Option String) (cuts_ : Option Cut) (includeWeight : Bool)
    (systematic : Systematic) (key : Option Branch) (N : ℕ) (hN : 1 ≤ N)
    (hok : ∀ ds ∈ datasets,
      (resolveVariant ds (resSys sysByWeight systematic)).table.fail =
        false) :
    s.partitionedRecords datasets REGIONS sysByWeight category region none
        cuts_ includeWeight systematic key N true =
      .ok ((List.range N).map (fun p => datasets.map (recordsDatasetOut s
        (partQuerySel s REGIONS category region systematic cuts_ key N p)
        (s.weights systematic) includeWeight (resSys sysByWeight systematic)
        1 true (partQueryStart key p) (partQueryStep key N)))) ∧
    (∀ (p : ℕ) (ds : SSDataset),
      (recordsDatasetOut s
        (partQuerySel s REGIONS category region systematic cuts_ key N p)
        (s.weights systematic) includeWeight (resSys sysByWeight systematic)
        1 true (partQueryStart key p) (partQueryStep key N) ds).2 =
      some (partCoords s REGIONS sysByWeight category region cuts_
        systematic key N p ds)) ∧
    (∀ (ds : SSDataset) (j p₁ p₂ : ℕ), p₁ < N → p₂ < N → p₁ ≠ p₂ →
      ¬(j ∈ partCoords s REGIONS sysByWeight category region cuts_
          systematic key N p₁ ds ∧
        j ∈ partCoords s REGIONS sysByWeight category region cuts_
          systematic key N p₂ ds)) ∧
    (∀ (ds : SSDataset) (j : ℕ),
      (∃ p, p < N ∧ j ∈ partCoords s REGIONS sysByWeight category region
        cuts_ systematic key N p ds) ↔
      j ∈ (resolveVariant ds (resSys sysByWeight systematic)).table.getWhereList
        (recSel s REGIONS category region systematic cuts_) 0 1) ∧
    s.partitionedRecords datasets REGIONS sysByWeight category region none
        cuts_ includeWeight systematic key N true =
      s.partitionedRecords datasets REGIONS sysByWeight category region
        none cuts_ includeWeight systematic key N true := by
  refine ⟨?_, fun p ds => rfl, ?_, ?_, rfl⟩
  · unfold SSample.partitionedRecords
    refine partitionedLoop_ok (List.range N) ?_
    intro p hp
    cases key with
    | none =>
      exact recordsLoop_ok s
        (recSel s REGIONS category region systematic cuts_)
        (s.weights systematic) includeWeight
        (resSys sysByWeight systematic) 1 true p N datasets hok
    | some k =>
      exact recordsLoop_ok s
        (recSel s REGIONS category region systematic
          (some (cutAndOpt (partitionCut k N p) cuts_)))
        (s.weights systematic) includeWeight
        (resSys sysByWeight systematic) 1 true 0 1 datasets hok
  · intro ds j p₁ p₂ hp₁ hp₂ hne hmem
    obtain ⟨h1, h2⟩ := hmem
    cases key with
    | none =>
      simp only [partCoords, partQuerySel, partQueryStart, partQueryStep]
        at h1 h2
      rw [mem_getWhereList] at h1 h2
      obtain ⟨e₁, hg₁, hs₁, hle₁, hm₁⟩ := h1
      obtain ⟨e₂, hg₂, hs₂, hle₂, hm₂⟩ := h2
      have ha := (cond_mod_iff hp₁).mp ⟨hle₁, hm₁⟩
      have hb := (cond_mod_iff hp₂).mp ⟨hle₂, hm₂⟩
      exact hne (ha.symm.trans hb)
    | some k =>
      simp only [partCoords, partQuerySel, partQueryStart, partQueryStep]
        at h1 h2
      rw [mem_getWhereList] at h1 h2
      obtain ⟨e₁, hg₁, hs₁, _, _⟩ := h1
      obtain ⟨e₂, hg₂, hs₂, _, _⟩ := h2
      have he : e₁ = e₂ := Option.some.inj (hg₁.symm.trans hg₂)
      subst he
      rw [recSel_part_iff] at hs₁ hs₂
      obtain ⟨q, hqN, hcut, huniq⟩ :=
        partitionCut_unique k (show 0 < N by omega) e₁
      exact hne ((huniq p₁ hs₁.2).trans (huniq p₂ hs₂.2).symm)
  · intro ds j
    cases key with
    | none =>
      constructor
      · rintro ⟨p, hpN, hj⟩
        simp only [partCoords, partQuerySel, partQueryStart,
          partQueryStep] at hj
        rw [mem_getWhereList] at hj ⊢
        obtain ⟨e, hg, hs, _, _⟩ := hj
        exact ⟨e, hg, hs, Nat.zero_le j, by simp [Nat.mod_one]⟩
      · intro hj
        rw [mem_getWhereList] at hj
        obtain ⟨e, hg, hs, _, _⟩ := hj
        have hmlt : j % N < N := Nat.mod_lt j (by omega)
        refine ⟨j % N, hmlt, ?_⟩
        simp only [partCoords, partQuerySel, partQueryStart, partQueryStep]
        rw [mem_getWhereList]
        exact ⟨e, hg, hs, ((cond_mod_iff hmlt).mpr rfl).1,
          ((cond_mod_iff hmlt).mpr rfl).2⟩
    | some k =>
      constructor
      · rintro ⟨p, hpN, hj⟩
        simp only [partCoords, partQuerySel, partQueryStart,
          partQueryStep] at hj
        rw [mem_getWhereList] at hj ⊢
        obtain ⟨e, hg, hs, h0, h1⟩ := hj
        rw [recSel_part_iff] at hs
        exact ⟨e, hg, hs.1, h0, h1⟩
      · intro hj
        rw [mem_getWhereList] at hj
        obtain ⟨e, hg, hs, h0, h1⟩ := hj
        obtain ⟨p, hpN, hcut, _⟩ :=
          partitionCut_unique k (show 0 < N by omega) e
        refine ⟨p, hpN, ?_⟩
        simp only [partCoords, partQuerySel, partQueryStart, partQueryStep]
        rw [mem_getWhereList]
        exact ⟨e, hg, (recSel_part_iff s REGIONS category region systematic
          cuts_ k N p e).mpr ⟨hs, hcut⟩, h0, h1⟩

theorem partitioned_records_properties_witness :
    1 ≤ 2 ∧
    (∀ ds ∈ [dsGood],
      (resolveVariant ds (resSys [] .NOMINAL)).table.fail = false) ∧
    (ssT.partitionedRecords [dsGood] regionsP [] none none none none false
        .NOMINAL none 2 true =
      .ok ((List.range 2).map (fun p => [dsGood].map (recordsDatasetOut ssT
        (partQuerySel ssT regionsP none none .NOMINAL none none 2 p)
        (ssT.weights .NOMINAL) false (resSys [] .NOMINAL) 1 true
        (partQueryStart none p) (partQueryStep none 2)))) ∧
    (∀ (p : ℕ) (ds : SSDataset),
      (recordsDatasetOut ssT
        (partQuerySel ssT regionsP none none .NOMINAL none none 2 p)
        (ssT.weights .NOMINAL) false (resSys [] .NOMINAL) 1 true
        (partQueryStart none p) (partQueryStep none 2) ds).2 =
      some (partCoords ssT regionsP [] none none none .NOMINAL none 2 p
        ds)) ∧
    (∀ (ds : SSDataset) (j p₁ p₂ : ℕ), p₁ < 2 → p₂ < 2 → p₁ ≠ p₂ →
      ¬(j ∈ partCoords ssT regionsP [] none none none .NOMINAL none 2 p₁
          ds ∧
        j ∈ partCoords ssT regionsP [] none none none .NOMINAL none 2 p₂
          ds)) ∧
    (∀ (ds : SSDataset) (j : ℕ),
      (∃ p, p < 2 ∧ j ∈ partCoords ssT regionsP [] none none none .NOMINAL
        none 2 p ds) ↔
      j ∈ (resolveVariant ds (resSys [] .NOMINAL)).table.getWhereList
        (recSel ssT regionsP none none .NOMINAL none) 0 1) ∧
    ssT.partitionedRecords [dsGood] regionsP [] none none none none false
        .NOMINAL none 2 true =
      ssT.partitionedRecords [dsGood] regionsP [] none none none none false
        .NOMINAL none 2 true) :=
  ⟨by decide,
   by
     intro ds hds
     rw [List.mem_singleton.mp hds]
     rfl,
   partitioned_records_properties ssT [dsGood] regionsP [] none none none
     false .NOMINAL none 2 (by decide)
     (by
       intro ds hds
       rw [List.mem_singleton.mp hds]
       rfl)⟩

end SamplePkg

end Hhana
